import Mathlib

/-!
# Verification of the Subversion working-copy update editor

A shallow embedding of `subversion/libsvn_wc/update_editor.c` (the
working-copy update editor) together with proofs about the embedded
operations.  Each section models one cluster of source functions:

* the completion tracker (`bump_dir_info`, `make_dir_baton`,
  `make_file_baton`, `maybe_bump_dir_info`) as an explicit state machine;
* `complete_directory`'s entry sweep;
* `close_edit` and the update-cleanup sweep;
* `set_target_revision`;
* `close_file`, `apply_textdelta` and `choose_base_paths`;
* `locate_copyfrom`;
* `open_directory`;
* the `check_path_under_root` path-safety guard and its call sites.

Functions of the repository that live outside the file under analysis
(for example `svn_wc__do_update_cleanup` or `svn_dirent_is_under_root`)
are modelled from the specification; each such definition says so in its
doc comment.  Functions whose internals are irrelevant to the statements
proved here (for example the three-way merge inside `close_file`) are
taken as explicit function parameters, so the theorems are quantified
over every possible behaviour of those collaborators.
-/

namespace SvnUpdateEditor

/-- Node kinds, mirroring `svn_node_kind_t`. -/
inductive NodeKind where
  | none
  | file
  | dir
  | unknown
  deriving DecidableEq, Repr

/-- Entry schedules, mirroring `svn_wc_schedule_t`. -/
inductive Schedule where
  | normal
  | add
  | delete
  | replace
  deriving DecidableEq, Repr

/-- Depth values, mirroring `svn_depth_t` (the numeric order of the C enum
is preserved: `unknown < exclude < empty < files < immediates < infinity`). -/
inductive Depth where
  | unknown
  | exclude
  | empty
  | files
  | immediates
  | infinity
  deriving DecidableEq, Repr

/-- Numeric rank of a `Depth`, used for the C comparisons on `svn_depth_t`. -/
def Depth.rank : Depth → Nat
  | .unknown => 0
  | .exclude => 1
  | .empty => 2
  | .files => 3
  | .immediates => 4
  | .infinity => 5

/-- The stable failure codes surfaced by the editor. -/
inductive Err where
  | obstructedUpdate
  | corruptTextBase
  | checksumMismatch
  | unsupportedFeature
  | unversionedResource
  | copyfromPathNotFound
  | entryNotFound
  | assertionFail
  | invalidOpOnCwd
  deriving DecidableEq, Repr

/-- Revision numbers: `svn_revnum_t` is a signed integer and
`SVN_INVALID_REVNUM` is `-1`; a revision is valid iff it is nonnegative. -/
abbrev RevNum := Int

/-- `SVN_IS_VALID_REVNUM`. -/
def isValidRev (r : RevNum) : Prop := 0 ≤ r

instance (r : RevNum) : Decidable (isValidRev r) := by
  unfold isValidRev; infer_instance

/-- A working-copy entry, mirroring the fields of `svn_wc_entry_t` that the
modelled operations read or write. -/
structure Entry where
  revision : RevNum
  url : Option String
  kind : NodeKind
  schedule : Schedule
  deleted : Bool
  absent : Bool
  incomplete : Bool
  depth : Depth
  checksum : Option String
  deriving DecidableEq, Repr

/-! ## Completion tracker (update_editor.c:399, 611, 860, 1027)

The bump records live in the edit pool and are never freed, so the model
keeps them in an arena (`recs`) indexed by allocation order; a record's
`parent` field holds the index of the parent record, which is always
strictly smaller (the parent was allocated first). -/

/-- `struct bump_dir_info` (update_editor.c:399): parent link, reference
count, directory path and the skipped flag. -/
structure BumpDirInfo where
  parent : Option Nat
  refCount : Nat
  path : String
  skipped : Bool
  deriving DecidableEq, Repr

/-- The completion-tracker state of a drive: the arena of bump records,
the multiset `files` of open file batons (each entry is the record index
stored in the file baton's `bump_info`), the open directory batons
`openDirs` (each directory baton owns exactly one record) and the journal
`completed` of `complete_directory` runs (most recent first).  The entry
sweep performed by `complete_directory` is modelled separately; here only
the fact that it ran on a path is recorded. -/
structure DriveState where
  recs : List BumpDirInfo
  files : List Nat
  openDirs : List Nat
  completed : List String
  deriving DecidableEq, Repr

/-- Increment the reference count of record `i` (no-op on a dangling
index, which never occurs in a drive). -/
def bumpIncr (i : Nat) (recs : List BumpDirInfo) : List BumpDirInfo :=
  match recs[i]? with
  | some r => recs.set i { r with refCount := r.refCount + 1 }
  | none => recs

/-- The bump bookkeeping of `make_dir_baton` (update_editor.c:611-620):
allocate a record with `ref_count = 1` in the edit pool, add one referer
to the parent's record, and open the new directory baton. -/
def make_dir_baton_bump (parent : Option Nat) (path : String) (s : DriveState) : DriveState :=
  let bdi : BumpDirInfo := { parent := parent, refCount := 1, path := path, skipped := false }
  let recs :=
    match parent with
    | some p => bumpIncr p s.recs ++ [bdi]
    | none => s.recs ++ [bdi]
  { s with recs := recs, openDirs := s.recs.length :: s.openDirs }

/-- The bump bookkeeping of `make_file_baton` (update_editor.c:1027): the
directory's bump info has one more referer. -/
def make_file_baton_bump (i : Nat) (s : DriveState) : DriveState :=
  { s with recs := bumpIncr i s.recs, files := i :: s.files }

/-- `maybe_bump_dir_info` (update_editor.c:860-881), with explicit fuel
for the walk up the parent chain (parents have strictly smaller indices,
so `i + 1` units of fuel always suffice when starting at record `i`):
decrement the record; if the count is still positive stop; otherwise run
`complete_directory` on the record's path unless it was skipped, and loop
on to the parent record. -/
def maybe_bump_dir_info : Nat → Option Nat → DriveState → DriveState
  | _, none, s => s
  | 0, some _, s => s
  | fuel + 1, some i, s =>
    match s.recs[i]? with
    | none => s
    | some r =>
      let r' : BumpDirInfo := { r with refCount := r.refCount - 1 }
      let s' : DriveState := { s with recs := s.recs.set i r' }
      if 0 < r'.refCount then s'
      else
        let s'' : DriveState :=
          if r.skipped then s' else { s' with completed := r.path :: s'.completed }
        maybe_bump_dir_info fuel r.parent s''

/-- `maybe_bump_dir_info` started at record `i`, with enough fuel. -/
def maybe_bump_from (i : Nat) (s : DriveState) : DriveState :=
  maybe_bump_dir_info (i + 1) (some i) s

/-- The drive steps that touch the completion tracker:
`open_root`/`add_directory`/`open_directory` call `make_dir_baton`,
conflict handling may set a record's `skipped` flag,
`add_file`/`open_file` call `make_file_baton`, and
`close_file`/`close_directory` (on both their skipped and normal paths)
drop one reference through `maybe_bump_dir_info`. -/
inductive Step : DriveState → DriveState → Prop where
  | openRootDir (path : String) (s : DriveState) :
      Step s (make_dir_baton_bump none path s)
  | openChildDir (p : Nat) (path : String) (s : DriveState)
      (hp : p ∈ s.openDirs) :
      Step s (make_dir_baton_bump (some p) path s)
  | markSkipped (i : Nat) (r : BumpDirInfo) (s : DriveState)
      (hi : s.recs[i]? = some r) :
      Step s { s with recs := s.recs.set i { r with skipped := true } }
  | openFile (i : Nat) (s : DriveState) (hi : i ∈ s.openDirs) :
      Step s (make_file_baton_bump i s)
  | closeFile (i : Nat) (s : DriveState) (hi : i ∈ s.files) :
      Step s (maybe_bump_from i { s with files := s.files.erase i })
  | closeDir (i : Nat) (s : DriveState) (hi : i ∈ s.openDirs) :
      Step s (maybe_bump_from i { s with openDirs := s.openDirs.erase i })

/-- The empty tracker at the start of an edit. -/
def initDrive : DriveState := ⟨[], [], [], []⟩

/-- Tracker states reachable by some drive. -/
def Reachable (s : DriveState) : Prop :=
  Relation.ReflTransGen Step initDrive s

/-- A record is a live child of record `i` if its parent link points to
`i` and its reference count has not yet reached zero. -/
def isLiveChildOf (i : Nat) (r : BumpDirInfo) : Bool :=
  decide (r.parent = some i ∧ 0 < r.refCount)

/-- Number of live child-directory records of record `i`. -/
def liveChildCount (recs : List BumpDirInfo) (i : Nat) : Nat :=
  recs.countP (isLiveChildOf i)

/-- The number of live referers of record `i`: open child files, live
child-directory records, and the record's own directory baton while it is
open. -/
def contrib (s : DriveState) (i : Nat) : Nat :=
  s.files.count i + liveChildCount s.recs i + s.openDirs.count i

/-- Parent links always point to earlier allocations. -/
def ParentsLt (recs : List BumpDirInfo) : Prop :=
  ∀ (i : Nat) (r : BumpDirInfo), recs[i]? = some r → ∀ p, r.parent = some p → p < i

/-- Well-formedness of a tracker state: parent links decrease, and file
batons and directory batons only reference allocated records. -/
def WF (s : DriveState) : Prop :=
  ParentsLt s.recs ∧
  (∀ i ∈ s.files, i < s.recs.length) ∧
  (∀ i ∈ s.openDirs, i < s.recs.length)

/-- The reference-count invariant: each record's count equals the number
of its live referers. -/
def Inv (s : DriveState) : Prop :=
  ∀ (i : Nat) (r : BumpDirInfo), s.recs[i]? = some r → r.refCount = contrib s i

/-! ### Bookkeeping lemmas for the tracker -/

lemma countP_set_balance {α : Type} (p : α → Bool) :
    ∀ (l : List α) (i : Nat) (a b : α), l[i]? = some b →
      (l.set i a).countP p + (if p b then 1 else 0) =
        l.countP p + (if p a then 1 else 0) := by
  intro l
  induction l with
  | nil => intro i a b h; simp at h
  | cons hd tl ih =>
    intro i a b h
    cases i with
    | zero =>
      simp only [List.getElem?_cons_zero, Option.some.injEq] at h
      subst h
      simp only [List.set_cons_zero, List.countP_cons]
      omega
    | succ n =>
      simp only [List.getElem?_cons_succ] at h
      have hrec := ih n a b h
      simp only [List.set_cons_succ, List.countP_cons]
      omega

lemma length_bumpIncr (i : Nat) (recs : List BumpDirInfo) :
    (bumpIncr i recs).length = recs.length := by
  unfold bumpIncr
  cases recs[i]? <;> simp

lemma getElem_set_self {α : Type} (l : List α) (i : Nat) (a b : α) (h : l[i]? = some b) :
    (l.set i a)[i]? = some a := by
  have : i < l.length := by
    by_contra hc
    rw [List.getElem?_eq_none_iff.mpr (by omega)] at h
    exact Option.noConfusion h
  rw [List.getElem?_set_self this]

lemma bumpIncr_get_self (i : Nat) (recs : List BumpDirInfo) (r : BumpDirInfo)
    (h : recs[i]? = some r) :
    (bumpIncr i recs)[i]? = some { r with refCount := r.refCount + 1 } := by
  unfold bumpIncr
  rw [h]
  exact getElem_set_self recs i _ r h

lemma bumpIncr_get_ne (i j : Nat) (recs : List BumpDirInfo) (hne : i ≠ j) :
    (bumpIncr i recs)[j]? = recs[j]? := by
  unfold bumpIncr
  cases recs[i]? with
  | none => rfl
  | some r => exact List.getElem?_set_ne hne

lemma parentsLt_set (recs : List BumpDirInfo) (i : Nat) (r r' : BumpDirInfo)
    (h : ParentsLt recs) (hget : recs[i]? = some r) (hpar : r'.parent = r.parent) :
    ParentsLt (recs.set i r') := by
  intro j rj hj p hp
  by_cases hij : i = j
  · subst hij
    rw [getElem_set_self recs i r' r hget] at hj
    cases hj
    exact h i r hget p (hpar ▸ hp)
  · rw [List.getElem?_set_ne hij] at hj
    exact h j rj hj p hp

lemma liveChildCount_set (recs : List BumpDirInfo) (i : Nat) (r r' : BumpDirInfo)
    (hget : recs[i]? = some r) (j : Nat) :
    liveChildCount (recs.set i r') j + (if isLiveChildOf j r then 1 else 0) =
      liveChildCount recs j + (if isLiveChildOf j r' then 1 else 0) :=
  countP_set_balance (isLiveChildOf j) recs i r' r hget

lemma isLiveChildOf_eq_of_pos (j : Nat) (r r' : BumpDirInfo)
    (hpar : r'.parent = r.parent) (hr : 0 < r.refCount) (hr' : 0 < r'.refCount) :
    isLiveChildOf j r = isLiveChildOf j r' := by
  unfold isLiveChildOf
  rw [hpar]
  by_cases h : r.parent = some j <;> simp [h, hr, hr']

/-- With parent links strictly decreasing, any fuel above the starting
index gives the same result. -/
lemma maybe_bump_fuel (i : Nat) :
    ∀ (s : DriveState) (a b : Nat), ParentsLt s.recs → i < a → i < b →
      maybe_bump_dir_info a (some i) s = maybe_bump_dir_info b (some i) s := by
  induction i using Nat.strong_induction_on with
  | _ i ih =>
    intro s a b hP ha hb
    match a, b with
    | a' + 1, b' + 1 =>
      simp only [maybe_bump_dir_info]
      cases hr : s.recs[i]? with
      | none => rfl
      | some r =>
        obtain ⟨rpar, rcnt, rpath, rskip⟩ := r
        by_cases hpos : 0 < rcnt - 1
        · simp [hpos]
        · simp only [hpos, if_false]
          cases rpar with
          | none => cases rskip <;> simp [maybe_bump_dir_info]
          | some p =>
            have hpi : p < i := hP i _ hr p rfl
            have hP' : ParentsLt (s.recs.set i ⟨some p, rcnt - 1, rpath, rskip⟩) :=
              parentsLt_set s.recs i _ _ hP hr rfl
            cases rskip <;>
              exact ih p hpi _ a' b' hP' (by omega) (by omega)

/-- All records except `i` satisfy the reference-count equation, while
record `i` carries one extra reference that is about to be dropped. -/
def InvExcept (s : DriveState) (i : Nat) : Prop :=
  (∀ (j : Nat) (r : BumpDirInfo), j ≠ i → s.recs[j]? = some r → r.refCount = contrib s j) ∧
  (∀ (r : BumpDirInfo), s.recs[i]? = some r → r.refCount = contrib s i + 1)

lemma wf_transfer (s t : DriveState) (i : Nat) (r r' : BumpDirInfo)
    (hget : s.recs[i]? = some r) (hpar : r'.parent = r.parent) (hWF : WF s)
    (hrecs : t.recs = s.recs.set i r') (hfiles : t.files = s.files)
    (hod : t.openDirs = s.openDirs) : WF t := by
  obtain ⟨h1, h2, h3⟩ := hWF
  refine ⟨hrecs ▸ parentsLt_set s.recs i r r' h1 hget hpar, ?_, ?_⟩
  · intro j hj
    rw [hrecs, List.length_set]
    exact h2 j (hfiles ▸ hj)
  · intro j hj
    rw [hrecs, List.length_set]
    exact h3 j (hod ▸ hj)

lemma isLiveChildOf_zero (j : Nat) (pa : Option Nat) (pth : String) (sk : Bool) :
    isLiveChildOf j ⟨pa, 0, pth, sk⟩ = false := by
  simp [isLiveChildOf]

lemma isLiveChildOf_one (j : Nat) (pa : Option Nat) (pth : String) (sk : Bool) :
    isLiveChildOf j ⟨pa, 1, pth, sk⟩ = decide (pa = some j) := by
  simp [isLiveChildOf]

/-- Decrementing a positive count that stays positive changes no record's
live-referer count. -/
lemma contrib_transfer_pos (s t : DriveState) (i : Nat) (r r' : BumpDirInfo)
    (hget : s.recs[i]? = some r) (hpar : r'.parent = r.parent)
    (hr : 0 < r.refCount) (hr' : 0 < r'.refCount)
    (hrecs : t.recs = s.recs.set i r') (hfiles : t.files = s.files)
    (hod : t.openDirs = s.openDirs) :
    ∀ j, contrib t j = contrib s j := by
  intro j
  have hb := liveChildCount_set s.recs i r r' hget j
  rw [isLiveChildOf_eq_of_pos j r r' hpar hr hr'] at hb
  unfold contrib
  rw [hrecs, hfiles, hod]
  omega

/-- The journal side of one `complete_directory` run inside the cascade:
skipped records are not completed. -/
def completeMark (skipped : Bool) (pth : String) (s : DriveState) : DriveState :=
  if skipped then s else { s with completed := pth :: s.completed }

lemma completeMark_recs (sk : Bool) (pth : String) (s : DriveState) :
    (completeMark sk pth s).recs = s.recs := by
  unfold completeMark; cases sk <;> simp

lemma completeMark_files (sk : Bool) (pth : String) (s : DriveState) :
    (completeMark sk pth s).files = s.files := by
  unfold completeMark; cases sk <;> simp

lemma completeMark_openDirs (sk : Bool) (pth : String) (s : DriveState) :
    (completeMark sk pth s).openDirs = s.openDirs := by
  unfold completeMark; cases sk <;> simp

/-- Dropping the last reference of a root record (no parent) restores the
full invariant: no other record counted it as a live child. -/
lemma inv_after_dec_root (s t : DriveState) (i : Nat) (pth : String) (sk sk' : Bool)
    (hget : s.recs[i]? = some ⟨none, 1, pth, sk⟩)
    (hIE : InvExcept s i) (hc0 : contrib s i = 0)
    (hrecs : t.recs = s.recs.set i ⟨none, 0, pth, sk'⟩) (hfiles : t.files = s.files)
    (hod : t.openDirs = s.openDirs) : Inv t := by
  have hchg : ∀ j, liveChildCount t.recs j = liveChildCount s.recs j := by
    intro j
    have hb := liveChildCount_set s.recs i ⟨none, 1, pth, sk⟩ ⟨none, 0, pth, sk'⟩ hget j
    rw [isLiveChildOf_zero, isLiveChildOf_one] at hb
    simp at hb
    rw [hrecs]
    omega
  have hcontrib : ∀ j, contrib t j = contrib s j := by
    intro j
    unfold contrib
    rw [hchg, hfiles, hod]
  intro j rj hj
  rw [hrecs] at hj
  by_cases hji : j = i
  · subst hji
    rw [getElem_set_self s.recs j _ _ hget] at hj
    cases hj
    rw [hcontrib, hc0]
  · rw [List.getElem?_set_ne (fun h => hji h.symm)] at hj
    rw [hcontrib]
    exact hIE.1 j rj hji hj

/-- Dropping the last reference of a record with parent `p` makes `p` the
record with one extra reference. -/
lemma invExcept_after_dec (s t : DriveState) (i p : Nat) (pth : String) (sk sk' : Bool)
    (hget : s.recs[i]? = some ⟨some p, 1, pth, sk⟩)
    (hIE : InvExcept s i) (hc0 : contrib s i = 0) (hpi : p < i)
    (hrecs : t.recs = s.recs.set i ⟨some p, 0, pth, sk'⟩) (hfiles : t.files = s.files)
    (hod : t.openDirs = s.openDirs) : InvExcept t p := by
  have hbal : ∀ j, liveChildCount t.recs j + (if p = j then 1 else 0) =
      liveChildCount s.recs j := by
    intro j
    have hb := liveChildCount_set s.recs i ⟨some p, 1, pth, sk⟩ ⟨some p, 0, pth, sk'⟩ hget j
    rw [isLiveChildOf_zero, isLiveChildOf_one] at hb
    simp only [Bool.false_eq_true, if_false, decide_eq_true_eq, Option.some.injEq] at hb
    rw [hrecs]
    omega
  have hchg_ne : ∀ j, p ≠ j → liveChildCount t.recs j = liveChildCount s.recs j := by
    intro j hpj
    have hb := hbal j
    rw [if_neg hpj] at hb
    omega
  constructor
  · intro j rj hjp hj
    rw [hrecs] at hj
    by_cases hji : j = i
    · subst hji
      rw [getElem_set_self s.recs j _ _ hget] at hj
      cases hj
      have hcj : contrib t j = contrib s j := by
        unfold contrib
        rw [hchg_ne j (by omega), hfiles, hod]
      rw [hcj, hc0]
    · rw [List.getElem?_set_ne (fun h => hji h.symm)] at hj
      have hcj : contrib t j = contrib s j := by
        unfold contrib
        rw [hchg_ne j (fun h => hjp h.symm), hfiles, hod]
      rw [hcj]
      exact hIE.1 j rj hji hj
  · intro rp hp
    rw [hrecs, List.getElem?_set_ne (by omega : i ≠ p)] at hp
    have heqp : rp.refCount = contrib s p := hIE.1 p rp (by omega) hp
    have hb := hbal p
    rw [if_pos rfl] at hb
    have hfc : contrib t p + 1 = contrib s p := by
      unfold contrib
      rw [hfiles, hod]
      omega
    omega

/-- The completion cascade restores the reference-count invariant: if
every record except `i` satisfies the equation and `i` carries one extra
reference, then after `maybe_bump_dir_info` starting at `i` the whole
state satisfies it again. -/
lemma maybe_bump_restores (i : Nat) :
    ∀ s : DriveState, WF s → InvExcept s i →
      WF (maybe_bump_from i s) ∧ Inv (maybe_bump_from i s) := by
  induction i using Nat.strong_induction_on with
  | _ i ih =>
    intro s hWF hIE
    unfold maybe_bump_from
    cases hr : s.recs[i]? with
    | none =>
      have heq : maybe_bump_dir_info (i + 1) (some i) s = s := by
        simp [maybe_bump_dir_info, hr]
      rw [heq]
      refine ⟨hWF, fun j rj hj => ?_⟩
      by_cases hji : j = i
      · subst hji; rw [hr] at hj; exact Option.noConfusion hj
      · exact hIE.1 j rj hji hj
    | some r =>
      obtain ⟨rpar, rcnt, rpath, rskip⟩ := r
      have hcnt : rcnt = contrib s i + 1 := hIE.2 _ hr
      by_cases hpos : 0 < rcnt - 1
      · -- the count stays positive: stop, invariant restored at `i`
        have heq : maybe_bump_dir_info (i + 1) (some i) s =
            { s with recs := s.recs.set i ⟨rpar, rcnt - 1, rpath, rskip⟩ } := by
          simp [maybe_bump_dir_info, hr, hpos]
        rw [heq]
        set t : DriveState :=
          { s with recs := s.recs.set i ⟨rpar, rcnt - 1, rpath, rskip⟩ } with ht
        have htr : t.recs = s.recs.set i ⟨rpar, rcnt - 1, rpath, rskip⟩ := by rw [ht]
        have hct : ∀ j, contrib t j = contrib s j :=
          contrib_transfer_pos s t i ⟨rpar, rcnt, rpath, rskip⟩
            ⟨rpar, rcnt - 1, rpath, rskip⟩ hr rfl (show 0 < rcnt by omega) hpos htr
            (by rw [ht]) (by rw [ht])
        refine ⟨wf_transfer s t i ⟨rpar, rcnt, rpath, rskip⟩ ⟨rpar, rcnt - 1, rpath, rskip⟩
          hr rfl hWF htr (by rw [ht]) (by rw [ht]), fun j rj hj => ?_⟩
        rw [htr] at hj
        by_cases hji : j = i
        · subst hji
          rw [getElem_set_self s.recs j _ _ hr] at hj
          cases hj
          rw [hct]
          show rcnt - 1 = contrib s j
          omega
        · rw [List.getElem?_set_ne (fun h => hji h.symm)] at hj
          rw [hct]
          exact hIE.1 j rj hji hj
      · -- the count reached zero: complete (unless skipped) and cascade
        have hc0 : contrib s i = 0 := by omega
        have hrc1 : rcnt = 1 := by omega
        subst hrc1
        cases rpar with
        | none =>
          have heq : maybe_bump_dir_info (i + 1) (some i) s =
              completeMark rskip rpath
                { s with recs := s.recs.set i ⟨none, 0, rpath, rskip⟩ } := by
            simp [maybe_bump_dir_info, hr, completeMark]
          rw [heq]
          set t : DriveState := completeMark rskip rpath
            { s with recs := s.recs.set i ⟨none, 0, rpath, rskip⟩ } with ht
          have htr : t.recs = s.recs.set i ⟨none, 0, rpath, rskip⟩ := by
            rw [ht, completeMark_recs]
          have htf : t.files = s.files := by rw [ht, completeMark_files]
          have hto : t.openDirs = s.openDirs := by rw [ht, completeMark_openDirs]
          exact ⟨wf_transfer s t i ⟨none, 1, rpath, rskip⟩ ⟨none, 0, rpath, rskip⟩
              hr rfl hWF htr htf hto,
            inv_after_dec_root s t i rpath rskip rskip hr hIE hc0 htr htf hto⟩
        | some p =>
          have hpi : p < i := hWF.1 i _ hr p rfl
          have heq : maybe_bump_dir_info (i + 1) (some i) s =
              maybe_bump_dir_info i (some p)
                (completeMark rskip rpath
                  { s with recs := s.recs.set i ⟨some p, 0, rpath, rskip⟩ }) := by
            simp [maybe_bump_dir_info, hr, completeMark]
          rw [heq]
          set t : DriveState := completeMark rskip rpath
            { s with recs := s.recs.set i ⟨some p, 0, rpath, rskip⟩ } with ht
          have htr : t.recs = s.recs.set i ⟨some p, 0, rpath, rskip⟩ := by
            rw [ht, completeMark_recs]
          have htf : t.files = s.files := by rw [ht, completeMark_files]
          have hto : t.openDirs = s.openDirs := by rw [ht, completeMark_openDirs]
          have hWFt : WF t := wf_transfer s t i ⟨some p, 1, rpath, rskip⟩
            ⟨some p, 0, rpath, rskip⟩ hr rfl hWF htr htf hto
          have hIEt : InvExcept t p :=
            invExcept_after_dec s t i p rpath rskip rskip hr hIE hc0 hpi htr htf hto
          have hfuel : maybe_bump_dir_info i (some p) t = maybe_bump_from p t := by
            unfold maybe_bump_from
            exact maybe_bump_fuel p t i (p + 1) hWFt.1 hpi (Nat.lt_succ_self p)
          rw [hfuel]
          exact ih p hpi t hWFt hIEt
lemma liveChildCount_append_one (recs : List BumpDirInfo) (b : BumpDirInfo) (j : Nat) :
    liveChildCount (recs ++ [b]) j =
      liveChildCount recs j + (if isLiveChildOf j b then 1 else 0) := by
  unfold liveChildCount
  rw [List.countP_append]
  simp [List.countP_cons]

lemma liveChildCount_top (recs : List BumpDirInfo) (hP : ParentsLt recs)
    (n : Nat) (hn : recs.length ≤ n) :
    liveChildCount recs n = 0 := by
  unfold liveChildCount
  apply List.countP_eq_zero.mpr
  intro a ha hla
  unfold isLiveChildOf at hla
  simp only [decide_eq_true_eq] at hla
  obtain ⟨k, hklt, hk⟩ := List.getElem_of_mem ha
  have hget : recs[k]? = some a := by rw [List.getElem?_eq_getElem hklt, hk]
  have := hP k a hget n hla.1
  omega

lemma parentsLt_append_one (recs : List BumpDirInfo) (b : BumpDirInfo)
    (hP : ParentsLt recs) (hb : ∀ q, b.parent = some q → q < recs.length) :
    ParentsLt (recs ++ [b]) := by
  intro j r hj p hp
  by_cases hjl : j < recs.length
  · rw [List.getElem?_append_left hjl] at hj
    exact hP j r hj p hp
  · by_cases hje : j = recs.length
    · subst hje
      have hcat : (recs ++ [b])[recs.length]? = some b := by simp
      rw [hcat] at hj
      cases hj
      exact lt_of_lt_of_le (hb p hp) (by omega)
    · rw [List.getElem?_eq_none_iff.mpr (by simp; omega)] at hj
      exact Option.noConfusion hj

lemma exists_rec_of_lt (recs : List BumpDirInfo) (i : Nat) (h : i < recs.length) :
    ∃ r, recs[i]? = some r :=
  ⟨recs[i], by rw [List.getElem?_eq_getElem h]⟩

lemma step_preserves_make_dir (parent : Option Nat) (path : String) (s : DriveState)
    (hWF : WF s) (hInv : Inv s) (hp : ∀ p, parent = some p → p ∈ s.openDirs) :
    WF (make_dir_baton_bump parent path s) ∧ Inv (make_dir_baton_bump parent path s) := by
  obtain ⟨hP, hF, hD⟩ := hWF
  have hfn : s.files.count s.recs.length = 0 :=
    List.count_eq_zero.mpr (fun hmem => by have := hF _ hmem; omega)
  have hdn : s.openDirs.count s.recs.length = 0 :=
    List.count_eq_zero.mpr (fun hmem => by have := hD _ hmem; omega)
  have hlcn : liveChildCount s.recs s.recs.length = 0 := liveChildCount_top s.recs hP _ le_rfl
  have hfiles_eq : (make_dir_baton_bump parent path s).files = s.files := by
    unfold make_dir_baton_bump
    cases parent <;> rfl
  have hod_eq : (make_dir_baton_bump parent path s).openDirs =
      s.recs.length :: s.openDirs := by
    unfold make_dir_baton_bump
    cases parent <;> rfl
  cases parent with
  | none =>
    have hrecseq : (make_dir_baton_bump none path s).recs =
        s.recs ++ [⟨none, 1, path, false⟩] := rfl
    have hlc : ∀ k, liveChildCount (make_dir_baton_bump none path s).recs k =
        liveChildCount s.recs k := by
      intro k
      rw [hrecseq, liveChildCount_append_one]
      simp [isLiveChildOf]
    have hlen2 : (make_dir_baton_bump none path s).recs.length = s.recs.length + 1 := by
      rw [hrecseq]
      simp
    constructor
    · refine ⟨?_, ?_, ?_⟩
      · rw [hrecseq]
        exact parentsLt_append_one s.recs _ hP (fun q hq => Option.noConfusion hq)
      · intro j hj
        rw [hfiles_eq] at hj
        have := hF j hj
        omega
      · intro j hj
        rw [hod_eq, List.mem_cons] at hj
        rcases hj with h | h
        · omega
        · have := hD j h
          omega
    · intro j r hj
      show r.refCount = contrib (make_dir_baton_bump none path s) j
      unfold contrib
      rw [hfiles_eq, hod_eq, hlc]
      rw [hrecseq] at hj
      by_cases hjl : j < s.recs.length
      · rw [List.getElem?_append_left hjl] at hj
        have hne : j ≠ s.recs.length := by omega
        rw [List.count_cons_of_ne hne]
        have := hInv j r hj
        unfold contrib at this
        omega
      · by_cases hje : j = s.recs.length
        · subst hje
          have hcat : (s.recs ++ [(⟨none, 1, path, false⟩ : BumpDirInfo)])[s.recs.length]? =
              some ⟨none, 1, path, false⟩ := by simp
          rw [hcat] at hj
          cases hj
          rw [List.count_cons_self, hfn, hdn, hlcn]
        · rw [List.getElem?_eq_none_iff.mpr (by simp; omega)] at hj
          exact Option.noConfusion hj
  | some p =>
    have hpd := hp p rfl
    have hplt : p < s.recs.length := hD p hpd
    obtain ⟨rp, hrp⟩ := exists_rec_of_lt s.recs p hplt
    have hrp_pos : 0 < rp.refCount := by
      have := hInv p rp hrp
      have hcp : 0 < s.openDirs.count p := List.count_pos_iff.mpr hpd
      unfold contrib at this
      omega
    have hincr : bumpIncr p s.recs = s.recs.set p { rp with refCount := rp.refCount + 1 } := by
      unfold bumpIncr
      rw [hrp]
    have hrecseq : (make_dir_baton_bump (some p) path s).recs =
        s.recs.set p { rp with refCount := rp.refCount + 1 } ++ [⟨some p, 1, path, false⟩] := by
      show bumpIncr p s.recs ++ [(⟨some p, 1, path, false⟩ : BumpDirInfo)] = _
      rw [hincr]
    have hlcset : ∀ k, liveChildCount (s.recs.set p { rp with refCount := rp.refCount + 1 }) k =
        liveChildCount s.recs k := by
      intro k
      have hb := liveChildCount_set s.recs p rp { rp with refCount := rp.refCount + 1 } hrp k
      rw [isLiveChildOf_eq_of_pos k rp { rp with refCount := rp.refCount + 1 } rfl hrp_pos
        (by simp)] at hb
      omega
    have hlc2 : ∀ k, liveChildCount (make_dir_baton_bump (some p) path s).recs k =
        liveChildCount s.recs k + (if p = k then 1 else 0) := by
      intro k
      rw [hrecseq, liveChildCount_append_one, hlcset, isLiveChildOf_one]
      simp
    have hlen_set : (s.recs.set p { rp with refCount := rp.refCount + 1 }).length =
        s.recs.length := by simp
    have hlen2 : (make_dir_baton_bump (some p) path s).recs.length = s.recs.length + 1 := by
      rw [hrecseq, List.length_append, hlen_set]
      rfl
    constructor
    · refine ⟨?_, ?_, ?_⟩
      · rw [hrecseq]
        refine parentsLt_append_one _ _ (parentsLt_set s.recs p rp _ hP hrp rfl) ?_
        intro q hq
        cases hq
        omega
      · intro j hj
        rw [hfiles_eq] at hj
        have := hF j hj
        omega
      · intro j hj
        rw [hod_eq, List.mem_cons] at hj
        rcases hj with h | h
        · omega
        · have := hD j h
          omega
    · intro j r hj
      show r.refCount = contrib (make_dir_baton_bump (some p) path s) j
      unfold contrib
      rw [hfiles_eq, hod_eq, hlc2]
      rw [hrecseq] at hj
      by_cases hjl : j < s.recs.length
      · rw [List.getElem?_append_left (by omega)] at hj
        have hne : j ≠ s.recs.length := by omega
        rw [List.count_cons_of_ne hne]
        by_cases hjp : j = p
        · rw [hjp] at hj ⊢
          rw [getElem_set_self s.recs p _ rp hrp] at hj
          cases hj
          have := hInv p rp hrp
          unfold contrib at this
          rw [if_pos rfl]
          show rp.refCount + 1 = _
          omega
        · rw [List.getElem?_set_ne (fun h => hjp h.symm)] at hj
          have := hInv j r hj
          unfold contrib at this
          rw [if_neg (fun h => hjp h.symm)]
          omega
      · by_cases hje : j = s.recs.length
        · subst hje
          have hcat : (s.recs.set p { rp with refCount := rp.refCount + 1 } ++
              [(⟨some p, 1, path, false⟩ : BumpDirInfo)])[s.recs.length]? =
              some ⟨some p, 1, path, false⟩ := by
            rw [show s.recs.length = (s.recs.set p
              { rp with refCount := rp.refCount + 1 }).length from (by simp)]
            simp
          rw [hcat] at hj
          cases hj
          rw [List.count_cons_self, if_neg (by omega : ¬ p = s.recs.length), hfn, hdn, hlcn]
        · rw [List.getElem?_eq_none_iff.mpr (by rw [List.length_append, hlen_set]; simp; omega)]
            at hj
          exact Option.noConfusion hj

lemma step_preserves_make_file (i : Nat) (s : DriveState)
    (hWF : WF s) (hInv : Inv s) (hi : i ∈ s.openDirs) :
    WF (make_file_baton_bump i s) ∧ Inv (make_file_baton_bump i s) := by
  obtain ⟨hP, hF, hD⟩ := hWF
  have hilt : i < s.recs.length := hD i hi
  obtain ⟨ri, hri⟩ := exists_rec_of_lt s.recs i hilt
  have hri_pos : 0 < ri.refCount := by
    have := hInv i ri hri
    have hcp : 0 < s.openDirs.count i := List.count_pos_iff.mpr hi
    unfold contrib at this
    omega
  have hincr : bumpIncr i s.recs = s.recs.set i { ri with refCount := ri.refCount + 1 } := by
    unfold bumpIncr
    rw [hri]
  have hlcset : ∀ k, liveChildCount (bumpIncr i s.recs) k = liveChildCount s.recs k := by
    intro k
    rw [hincr]
    have hb := liveChildCount_set s.recs i ri { ri with refCount := ri.refCount + 1 } hri k
    rw [isLiveChildOf_eq_of_pos k ri { ri with refCount := ri.refCount + 1 } rfl hri_pos
      (by simp)] at hb
    omega
  have hrecs_eq : (make_file_baton_bump i s).recs = bumpIncr i s.recs := rfl
  have hfiles_eq : (make_file_baton_bump i s).files = i :: s.files := rfl
  have hod_eq : (make_file_baton_bump i s).openDirs = s.openDirs := rfl
  constructor
  · refine ⟨?_, ?_, ?_⟩
    · rw [hrecs_eq, hincr]
      exact parentsLt_set s.recs i ri _ hP hri rfl
    · intro j hj
      rw [hfiles_eq, List.mem_cons] at hj
      rw [hrecs_eq, length_bumpIncr]
      rcases hj with h | h
      · omega
      · exact hF j h
    · intro j hj
      rw [hod_eq] at hj
      rw [hrecs_eq, length_bumpIncr]
      exact hD j hj
  · intro j r hj
    show r.refCount = contrib (make_file_baton_bump i s) j
    unfold contrib
    rw [hfiles_eq, hod_eq, hrecs_eq, hlcset]
    rw [hrecs_eq, hincr] at hj
    by_cases hji : j = i
    · rw [hji] at hj ⊢
      rw [getElem_set_self s.recs i _ ri hri] at hj
      cases hj
      have := hInv i ri hri
      unfold contrib at this
      rw [List.count_cons_self]
      show ri.refCount + 1 = _
      omega
    · rw [List.getElem?_set_ne (fun h => hji h.symm)] at hj
      have := hInv j r hj
      unfold contrib at this
      rw [List.count_cons_of_ne hji]
      omega

lemma step_preserves_markSkipped (i : Nat) (r : BumpDirInfo) (s : DriveState)
    (hWF : WF s) (hInv : Inv s) (hget : s.recs[i]? = some r) :
    WF { s with recs := s.recs.set i { r with skipped := true } } ∧
      Inv { s with recs := s.recs.set i { r with skipped := true } } := by
  obtain ⟨hP, hF, hD⟩ := hWF
  have hlcset : ∀ k, liveChildCount (s.recs.set i { r with skipped := true }) k =
      liveChildCount s.recs k := by
    intro k
    have hb := liveChildCount_set s.recs i r { r with skipped := true } hget k
    have hsame : isLiveChildOf k r = isLiveChildOf k { r with skipped := true } := rfl
    rw [hsame] at hb
    omega
  constructor
  · refine ⟨parentsLt_set s.recs i r _ hP hget rfl, ?_, ?_⟩
    · intro j hj
      rw [List.length_set]
      exact hF j hj
    · intro j hj
      rw [List.length_set]
      exact hD j hj
  · intro j rj hj
    show rj.refCount =
      contrib { s with recs := s.recs.set i { r with skipped := true } } j
    have hrecs_eq : ({ s with recs := s.recs.set i { r with skipped := true } }
        : DriveState).recs = s.recs.set i { r with skipped := true } := rfl
    unfold contrib
    rw [hrecs_eq] at hj ⊢
    rw [hlcset]
    by_cases hji : j = i
    · rw [hji] at hj ⊢
      rw [getElem_set_self s.recs i _ r hget] at hj
      cases hj
      have := hInv i r hget
      unfold contrib at this
      exact this
    · rw [List.getElem?_set_ne (fun h => hji h.symm)] at hj
      have := hInv j rj hj
      unfold contrib at this
      exact this

lemma step_preserves_closeFile (i : Nat) (s : DriveState)
    (hWF : WF s) (hInv : Inv s) (hi : i ∈ s.files) :
    WF (maybe_bump_from i { s with files := s.files.erase i }) ∧
      Inv (maybe_bump_from i { s with files := s.files.erase i }) := by
  obtain ⟨hP, hF, hD⟩ := hWF
  apply maybe_bump_restores
  · exact ⟨hP, fun j hj => hF j (List.mem_of_mem_erase hj), hD⟩
  · constructor
    · intro j rj hji hj
      have := hInv j rj hj
      unfold contrib at this ⊢
      rw [List.count_erase_of_ne hji s.files]
      exact this
    · intro rj hj
      have hh := hInv i rj hj
      have hcp : 0 < s.files.count i := List.count_pos_iff.mpr hi
      have h1 : ({ s with files := s.files.erase i } : DriveState).files =
          s.files.erase i := rfl
      have h2 : ({ s with files := s.files.erase i } : DriveState).recs = s.recs := rfl
      have h3 : ({ s with files := s.files.erase i } : DriveState).openDirs =
          s.openDirs := rfl
      unfold contrib at hh ⊢
      rw [h1, h2, h3, List.count_erase_self]
      omega

lemma step_preserves_closeDir (i : Nat) (s : DriveState)
    (hWF : WF s) (hInv : Inv s) (hi : i ∈ s.openDirs) :
    WF (maybe_bump_from i { s with openDirs := s.openDirs.erase i }) ∧
      Inv (maybe_bump_from i { s with openDirs := s.openDirs.erase i }) := by
  obtain ⟨hP, hF, hD⟩ := hWF
  apply maybe_bump_restores
  · exact ⟨hP, hF, fun j hj => hD j (List.mem_of_mem_erase hj)⟩
  · constructor
    · intro j rj hji hj
      have := hInv j rj hj
      unfold contrib at this ⊢
      rw [List.count_erase_of_ne hji s.openDirs]
      exact this
    · intro rj hj
      have hh := hInv i rj hj
      have hcp : 0 < s.openDirs.count i := List.count_pos_iff.mpr hi
      have h1 : ({ s with openDirs := s.openDirs.erase i } : DriveState).files =
          s.files := rfl
      have h2 : ({ s with openDirs := s.openDirs.erase i } : DriveState).recs =
          s.recs := rfl
      have h3 : ({ s with openDirs := s.openDirs.erase i } : DriveState).openDirs =
          s.openDirs.erase i := rfl
      unfold contrib at hh ⊢
      rw [h1, h2, h3, List.count_erase_self]
      omega

lemma step_preserves (s t : DriveState) (hst : Step s t) (h : WF s ∧ Inv s) :
    WF t ∧ Inv t := by
  cases hst with
  | openRootDir path s =>
    exact step_preserves_make_dir none path s h.1 h.2 (fun p hp => Option.noConfusion hp)
  | openChildDir p path s hp =>
    exact step_preserves_make_dir (some p) path s h.1 h.2 (fun q hq => by cases hq; exact hp)
  | markSkipped i r s hget =>
    exact step_preserves_markSkipped i r s h.1 h.2 hget
  | openFile i s hi =>
    exact step_preserves_make_file i s h.1 h.2 hi
  | closeFile i s hi =>
    exact step_preserves_closeFile i s h.1 h.2 hi
  | closeDir i s hi =>
    exact step_preserves_closeDir i s h.1 h.2 hi

lemma reachable_wf_inv (s : DriveState) (h : Reachable s) : WF s ∧ Inv s := by
  unfold Reachable at h
  induction h with
  | refl =>
    refine ⟨⟨?_, ?_, ?_⟩, ?_⟩
    · intro i r hir
      simp [initDrive] at hir
    · intro i hir
      simp [initDrive] at hir
    · intro i hir
      simp [initDrive] at hir
    · intro i r hir
      simp [initDrive] at hir
  | tail _ hbc ih => exact step_preserves _ _ hbc ih

/-- C2: at every reachable point of a drive, each bump record's reference
count equals the number of live child file batons plus the number of live
child-directory records plus one while its own directory baton is still
open (first conjunct); `maybe_bump_dir_info` decrements the given record
and, if the count is still positive, stops without running any completion
and without touching any ancestor (second conjunct: the result differs
from the input only in the decremented record); only when the count
reaches zero does it run `complete_directory` on the record's path —
skipped records excepted — and continue decrementing the parent record
(third conjunct). -/
theorem maybe_bump_refcount_invariant :
    (∀ s : DriveState, Reachable s → ∀ (i : Nat) (r : BumpDirInfo), s.recs[i]? = some r →
        r.refCount = s.files.count i + liveChildCount s.recs i + s.openDirs.count i) ∧
    (∀ (s : DriveState) (i : Nat) (r : BumpDirInfo), s.recs[i]? = some r → 1 < r.refCount →
        maybe_bump_from i s =
          { s with recs := s.recs.set i { r with refCount := r.refCount - 1 } }) ∧
    (∀ (s : DriveState) (i : Nat) (r : BumpDirInfo), s.recs[i]? = some r → r.refCount = 1 →
        ParentsLt s.recs →
        maybe_bump_from i s =
          (match r.parent with
            | none => completeMark r.skipped r.path
                { s with recs := s.recs.set i { r with refCount := 0 } }
            | some p => maybe_bump_from p (completeMark r.skipped r.path
                { s with recs := s.recs.set i { r with refCount := 0 } }))) := by
  refine ⟨?_, ?_, ?_⟩
  · intro s hre i r hr
    exact (reachable_wf_inv s hre).2 i r hr
  · intro s i r hr h1
    obtain ⟨pa, c, pth, sk⟩ := r
    have hc : 1 < c := h1
    unfold maybe_bump_from
    simp [maybe_bump_dir_info, hr, show 0 < c - 1 by omega]
  · intro s i r hr h1 hP
    obtain ⟨pa, c, pth, sk⟩ := r
    have hc : c = 1 := h1
    subst hc
    cases pa with
    | none =>
      unfold maybe_bump_from
      simp [maybe_bump_dir_info, hr, completeMark]
    | some p =>
      have hpi : p < i := hP i _ hr p rfl
      have heq : maybe_bump_dir_info (i + 1) (some i) s =
          maybe_bump_dir_info i (some p)
            (completeMark sk pth
              { s with recs := s.recs.set i ⟨some p, 0, pth, sk⟩ }) := by
        simp [maybe_bump_dir_info, hr, completeMark]
      show maybe_bump_dir_info (i + 1) (some i) s = _
      rw [heq]
      have hPt : ParentsLt (completeMark sk pth
          { s with recs := s.recs.set i ⟨some p, 0, pth, sk⟩ }).recs := by
        rw [completeMark_recs]
        exact parentsLt_set s.recs i _ _ hP hr rfl
      exact maybe_bump_fuel p _ i (p + 1) hPt hpi (Nat.lt_succ_self p)

/-- A small concrete drive used to witness the invariant: open the root,
open a child directory, open a file inside the child. -/
def driveEx : DriveState :=
  make_file_baton_bump 1 (make_dir_baton_bump (some 0) "wc/a"
    (make_dir_baton_bump none "wc" initDrive))

/-- A single root record about to drop its last reference. -/
def driveExLast : DriveState :=
  ⟨[⟨none, 1, "root", false⟩], [], [], []⟩

theorem maybe_bump_refcount_invariant_witness :
    ((⟨some 0, 2, "wc/a", false⟩ : BumpDirInfo).refCount =
        driveEx.files.count 1 + liveChildCount driveEx.recs 1 + driveEx.openDirs.count 1) ∧
    (maybe_bump_from 1 driveEx =
      { driveEx with recs := driveEx.recs.set 1 ⟨some 0, 1, "wc/a", false⟩ }) ∧
    (maybe_bump_from 0 driveExLast = completeMark false "root"
      { driveExLast with recs := driveExLast.recs.set 0 ⟨none, 0, "root", false⟩ }) := by
  have hreach : Reachable driveEx := by
    have h1 : Step initDrive (make_dir_baton_bump none "wc" initDrive) :=
      Step.openRootDir "wc" initDrive
    have h2 : Step (make_dir_baton_bump none "wc" initDrive)
        (make_dir_baton_bump (some 0) "wc/a" (make_dir_baton_bump none "wc" initDrive)) :=
      Step.openChildDir 0 "wc/a" _ (by decide)
    have h3 : Step (make_dir_baton_bump (some 0) "wc/a"
        (make_dir_baton_bump none "wc" initDrive)) driveEx :=
      Step.openFile 1 _ (by decide)
    exact Relation.ReflTransGen.tail
      (Relation.ReflTransGen.tail (Relation.ReflTransGen.single h1) h2) h3
  refine ⟨maybe_bump_refcount_invariant.1 driveEx hreach 1 ⟨some 0, 2, "wc/a", false⟩ rfl,
    maybe_bump_refcount_invariant.2.1 driveEx 1 ⟨some 0, 2, "wc/a", false⟩ rfl (by decide),
    maybe_bump_refcount_invariant.2.2 driveExLast 0 ⟨none, 1, "root", false⟩ rfl rfl ?_⟩
  intro k rk hk p hp
  cases k with
  | zero =>
    simp only [driveExLast, List.getElem?_cons_zero, Option.some.injEq] at hk
    rw [← hk] at hp
    exact Option.noConfusion hp
  | succ n =>
    simp [driveExLast] at hk

/-! ## `complete_directory` (update_editor.c:662-849)

The guards at the top of the function (a skipped tree that is not inside
a local deletion returns immediately; the anchor is not completed when
the edit has a named target) are decided before the entry sweep; the
theorems below carry them as hypotheses and the model covers the sweep
itself, lines 737-849. -/

/-- Association-list lookup by entry name; the empty name is the
directory's own (`THIS_DIR`) entry. -/
def lookupName (nm : String) : List (String × Entry) → Option Entry
  | [] => none
  | p :: rest => if p.1 = nm then some p.2 else lookupName nm rest

/-- The per-entry decision of `complete_directory`'s sweep loop
(update_editor.c:768-845): the surviving entry (`none` when removed),
together with an optional `update_delete` notification (emitted for
removed missing subdirectories).  `missing` is
`svn_wc__adm_missing` on the entry's path. -/
def sweepEntry (targetRevision : RevNum) (depthIsSticky : Bool) (requestedDepth : Depth)
    (missing : String → Bool) (nm : String) (e : Entry) : Option Entry × Option String :=
  if e.deleted then
    if e.schedule ≠ Schedule.add then (none, none)
    else (some { e with deleted := false }, none)
  else if e.absent ∧ e.revision ≠ targetRevision then (none, none)
  else if e.kind = NodeKind.dir then
    if e.depth = Depth.exclude then
      if depthIsSticky ∧ Depth.immediates.rank ≤ requestedDepth.rank then
        (some { e with depth := Depth.infinity }, none)
      else (some e, none)
    else if missing nm ∧ e.absent = false ∧ e.schedule ≠ Schedule.add then
      (none, some nm)
    else (some e, none)
  else (some e, none)

/-- Surviving-entry component of `sweepEntry`. -/
def sweepKeep (targetRevision : RevNum) (depthIsSticky : Bool) (requestedDepth : Depth)
    (missing : String → Bool) (nm : String) (e : Entry) : Option Entry :=
  (sweepEntry targetRevision depthIsSticky requestedDepth missing nm e).1

/-- Notification component of `sweepEntry`. -/
def sweepNote (targetRevision : RevNum) (depthIsSticky : Bool) (requestedDepth : Depth)
    (missing : String → Bool) (nm : String) (e : Entry) : Option String :=
  (sweepEntry targetRevision depthIsSticky requestedDepth missing nm e).2

/-- The update applied to the directory's own (`THIS_DIR`) entry
(update_editor.c:741-764): clear `incomplete`, and install the requested
depth when the depth is sticky and widening applies. -/
def completedThisDir (thisDir : Entry) (depthIsSticky : Bool) (requestedDepth : Depth)
    (isTarget : Bool) : Entry :=
  if depthIsSticky ∧ (requestedDepth = Depth.infinity ∨
      (isTarget ∧ thisDir.depth.rank < requestedDepth.rank)) then
    { thisDir with incomplete := false, depth := requestedDepth }
  else { thisDir with incomplete := false }

/-- `complete_directory`'s entry sweep (update_editor.c:737-849): fail if
the directory has no own entry; clear the directory's `incomplete` flag
and, when the depth is sticky and widening applies, install the requested
depth; then run the per-entry sweep over every entry of the directory.
`isTarget` says whether this directory is the join of anchor and target. -/
def complete_directory (targetRevision : RevNum) (depthIsSticky : Bool)
    (requestedDepth : Depth) (isTarget : Bool) (missing : String → Bool)
    (entries : List (String × Entry)) :
    Except Err (List (String × Entry) × List String) :=
  match lookupName "" entries with
  | none => .error .entryNotFound
  | some thisDir =>
    let thisDir2 : Entry := completedThisDir thisDir depthIsSticky requestedDepth isTarget
    let entries1 := entries.map (fun p => if p.1 = "" then (p.1, thisDir2) else p)
    .ok (entries1.filterMap (fun p =>
          (sweepKeep targetRevision depthIsSticky requestedDepth missing p.1 p.2).map
            (fun e' => (p.1, e'))),
        entries1.filterMap (fun p =>
          sweepNote targetRevision depthIsSticky requestedDepth missing p.1 p.2))

@[simp] lemma lookupName_nil (nm : String) : lookupName nm ([] : List (String × Entry)) = none :=
  rfl

@[simp] lemma lookupName_cons (k : String) (v : Entry) (rest : List (String × Entry))
    (nm : String) :
    lookupName nm ((k, v) :: rest) = if k = nm then some v else lookupName nm rest := rfl

lemma lookupName_eq_none_of_not_mem :
    ∀ (l : List (String × Entry)) (nm : String), nm ∉ l.map Prod.fst →
      lookupName nm l = none := by
  intro l
  induction l with
  | nil => intro nm _; rfl
  | cons hd tl ih =>
    obtain ⟨k, v⟩ := hd
    intro nm hnm
    simp only [List.map_cons, List.mem_cons] at hnm
    push_neg at hnm
    rw [lookupName_cons, if_neg (fun h => hnm.1 h.symm)]
    exact ih nm hnm.2

lemma mem_keys_filterMap_keep (f : String → Entry → Option Entry) :
    ∀ (l : List (String × Entry)) (nm : String),
      nm ∈ (l.filterMap (fun p => (f p.1 p.2).map (fun e' => (p.1, e')))).map Prod.fst →
      nm ∈ l.map Prod.fst := by
  intro l
  induction l with
  | nil => intro nm h; simp at h
  | cons hd tl ih =>
    obtain ⟨k, v⟩ := hd
    intro nm h
    cases hf : f k v with
    | none =>
      rw [List.filterMap_cons, hf] at h
      simp only [Option.map_none'] at h
      simp only [List.map_cons, List.mem_cons]
      right
      exact ih nm h
    | some w =>
      rw [List.filterMap_cons, hf] at h
      simp only [Option.map_some'] at h
      simp only [List.map_cons, List.mem_cons] at h ⊢
      rcases h with h | h
      · exact Or.inl h
      · exact Or.inr (ih nm h)

lemma lookupName_filterMap_keep (f : String → Entry → Option Entry) :
    ∀ (l : List (String × Entry)) (nm : String) (e : Entry),
      (l.map Prod.fst).Nodup → (nm, e) ∈ l →
      lookupName nm (l.filterMap (fun p => (f p.1 p.2).map (fun e' => (p.1, e')))) =
        f nm e := by
  intro l
  induction l with
  | nil => intro nm e _ hmem; simp at hmem
  | cons hd tl ih =>
    obtain ⟨k, v⟩ := hd
    intro nm e hnd hmem
    simp only [List.map_cons, List.nodup_cons] at hnd
    rcases List.mem_cons.mp hmem with heq | hmem'
    · -- the element is the head
      injection heq with h1 h2
      subst h1
      subst h2
      cases hf : f nm e with
      | none =>
        rw [List.filterMap_cons, hf]
        simp only [Option.map_none']
        apply lookupName_eq_none_of_not_mem
        intro hin
        exact hnd.1 (mem_keys_filterMap_keep f tl nm hin)
      | some w =>
        rw [List.filterMap_cons, hf]
        simp only [Option.map_some']
        rw [lookupName_cons, if_pos rfl]
    · -- the element is in the tail; the head key differs
      have hne : k ≠ nm := by
        intro h
        apply hnd.1
        rw [h]
        exact List.mem_map_of_mem Prod.fst hmem'
      cases hf : f k v with
      | none =>
        rw [List.filterMap_cons, hf]
        simp only [Option.map_none']
        exact ih nm e hnd.2 hmem'
      | some w =>
        rw [List.filterMap_cons, hf]
        simp only [Option.map_some']
        rw [lookupName_cons, if_neg hne]
        exact ih nm e hnd.2 hmem'

lemma keys_replaceThis (entries : List (String × Entry)) (d : Entry) :
    (entries.map (fun p => if p.1 = "" then (p.1, d) else p)).map Prod.fst =
      entries.map Prod.fst := by
  induction entries with
  | nil => rfl
  | cons hd tl ih =>
    by_cases hp : hd.1 = "" <;> simp [hp, ih]

lemma mem_of_lookupName :
    ∀ (l : List (String × Entry)) (nm : String) (e : Entry),
      lookupName nm l = some e → (nm, e) ∈ l := by
  intro l
  induction l with
  | nil => intro nm e h; exact Option.noConfusion h
  | cons hd tl ih =>
    obtain ⟨k, v⟩ := hd
    intro nm e h
    rw [lookupName_cons] at h
    by_cases hp : k = nm
    · rw [if_pos hp] at h
      cases h
      rw [List.mem_cons]
      left
      rw [← hp]
    · rw [if_neg hp] at h
      exact List.mem_cons.mpr (Or.inr (ih nm e h))

lemma sweepKeep_keeps_incomplete (targetRevision : RevNum) (sticky : Bool)
    (req : Depth) (missing : String → Bool) (nm : String) (e : Entry)
    (hdel : e.deleted = false) (habs : e.absent = false) (hmiss : missing nm = false) :
    ∃ d, sweepKeep targetRevision sticky req missing nm e = some d ∧
      d.incomplete = e.incomplete := by
  unfold sweepKeep sweepEntry
  rw [hdel, habs, hmiss]
  simp only [Bool.false_eq_true, if_false, false_and, and_false]
  split_ifs <;> exact ⟨_, rfl, rfl⟩

/-- C7: on every directory whose entry sweep runs, `complete_directory`
removes each entry marked `deleted` whose schedule is not `add`, clears
the `deleted` flag on entries marked `deleted` whose schedule is `add`,
removes each (non-deleted) `absent` entry whose recorded revision differs
from the edit's target revision, and clears the directory's own
`incomplete` flag. -/
theorem complete_directory_sweep_spec
    (targetRevision : RevNum) (sticky : Bool) (req : Depth) (isTarget : Bool)
    (missing : String → Bool) (entries : List (String × Entry)) (thisDir : Entry)
    (hnd : (entries.map Prod.fst).Nodup)
    (hthis : lookupName "" entries = some thisDir) :
    ∃ es' notifs,
      complete_directory targetRevision sticky req isTarget missing entries =
        .ok (es', notifs) ∧
      (∀ nm e, (nm, e) ∈ entries → nm ≠ "" → e.deleted = true → e.schedule ≠ Schedule.add →
        lookupName nm es' = none) ∧
      (∀ nm e, (nm, e) ∈ entries → nm ≠ "" → e.deleted = true → e.schedule = Schedule.add →
        lookupName nm es' = some { e with deleted := false }) ∧
      (∀ nm e, (nm, e) ∈ entries → nm ≠ "" → e.deleted = false → e.absent = true →
        e.revision ≠ targetRevision → lookupName nm es' = none) ∧
      (thisDir.deleted = false → thisDir.absent = false → missing "" = false →
        ∃ d, lookupName "" es' = some d ∧ d.incomplete = false) := by
  have hrepl : ∀ d : Entry,
      ((entries.map (fun p => if p.1 = "" then (p.1, d) else p)).map Prod.fst).Nodup := by
    intro d
    rw [keys_replaceThis]
    exact hnd
  have hmem1 : ∀ (nm : String) (e : Entry) (d : Entry), (nm, e) ∈ entries → nm ≠ "" →
      (nm, e) ∈ entries.map (fun p => if p.1 = "" then (p.1, d) else p) := by
    intro nm e d hmem hne
    have h := List.mem_map_of_mem (fun p => if p.1 = "" then (p.1, d) else p) hmem
    simpa [hne] using h
  have hrun : complete_directory targetRevision sticky req isTarget missing entries =
      .ok ((entries.map (fun p => if p.1 = "" then
              (p.1, completedThisDir thisDir sticky req isTarget) else p)).filterMap
            (fun p => (sweepKeep targetRevision sticky req missing p.1 p.2).map
              (fun e' => (p.1, e'))),
          (entries.map (fun p => if p.1 = "" then
              (p.1, completedThisDir thisDir sticky req isTarget) else p)).filterMap
            (fun p => sweepNote targetRevision sticky req missing p.1 p.2)) := by
    unfold complete_directory
    rw [hthis]
  refine ⟨_, _, hrun, ?_, ?_, ?_, ?_⟩
  · intro nm e hmem hne hdel hsch
    rw [lookupName_filterMap_keep (sweepKeep targetRevision sticky req missing) _
      nm e (hrepl _) (hmem1 nm e _ hmem hne)]
    unfold sweepKeep sweepEntry
    simp [hdel, hsch]
  · intro nm e hmem hne hdel hsch
    rw [lookupName_filterMap_keep (sweepKeep targetRevision sticky req missing) _
      nm e (hrepl _) (hmem1 nm e _ hmem hne)]
    unfold sweepKeep sweepEntry
    simp [hdel, hsch]
  · intro nm e hmem hne hdel habs hrev
    rw [lookupName_filterMap_keep (sweepKeep targetRevision sticky req missing) _
      nm e (hrepl _) (hmem1 nm e _ hmem hne)]
    unfold sweepKeep sweepEntry
    simp [hdel, habs, hrev]
  · intro hdd hda hmiss
    have hmem0 : ("", thisDir) ∈ entries := mem_of_lookupName entries "" thisDir hthis
    have hmemt : ∀ d : Entry,
        ("", d) ∈ entries.map (fun p => if p.1 = "" then (p.1, d) else p) := by
      intro d
      have h := List.mem_map_of_mem (fun p => if p.1 = "" then (p.1, d) else p) hmem0
      simpa using h
    rw [lookupName_filterMap_keep (sweepKeep targetRevision sticky req missing) _
      "" _ (hrepl _) (hmemt _)]
    have hflags : (completedThisDir thisDir sticky req isTarget).deleted = thisDir.deleted ∧
        (completedThisDir thisDir sticky req isTarget).absent = thisDir.absent ∧
        (completedThisDir thisDir sticky req isTarget).incomplete = false := by
      unfold completedThisDir
      split_ifs <;> exact ⟨rfl, rfl, rfl⟩
    obtain ⟨d, hd1, hd2⟩ := sweepKeep_keeps_incomplete targetRevision sticky req missing ""
      (completedThisDir thisDir sticky req isTarget)
      (hflags.1.trans hdd) (hflags.2.1.trans hda) hmiss
    exact ⟨d, hd1, hd2.trans hflags.2.2⟩

/-- A small directory for the sweep witness: an incomplete directory
entry, a dead `deleted` entry, a schedule-add `deleted` entry and a stale
`absent` entry. -/
def entriesEx : List (String × Entry) :=
  [("", ⟨3, none, .dir, .normal, false, false, true, .infinity, none⟩),
   ("gone", ⟨3, none, .file, .normal, true, false, false, .infinity, none⟩),
   ("kept", ⟨3, none, .file, .add, true, false, false, .infinity, none⟩),
   ("abs", ⟨3, none, .file, .normal, false, true, false, .infinity, none⟩)]

theorem complete_directory_sweep_spec_witness :
    ∃ es' notifs,
      complete_directory 5 false Depth.unknown false (fun _ => false) entriesEx =
        .ok (es', notifs) ∧
      (∀ nm e, (nm, e) ∈ entriesEx → nm ≠ "" → e.deleted = true →
        e.schedule ≠ Schedule.add → lookupName nm es' = none) ∧
      (∀ nm e, (nm, e) ∈ entriesEx → nm ≠ "" → e.deleted = true →
        e.schedule = Schedule.add → lookupName nm es' = some { e with deleted := false }) ∧
      (∀ nm e, (nm, e) ∈ entriesEx → nm ≠ "" → e.deleted = false → e.absent = true →
        e.revision ≠ 5 → lookupName nm es' = none) ∧
      ((⟨3, none, .dir, .normal, false, false, true, .infinity, none⟩ : Entry).deleted = false →
        (⟨3, none, .dir, .normal, false, false, true, .infinity, none⟩ : Entry).absent = false →
        false = false →
        ∃ d, lookupName "" es' = some d ∧ d.incomplete = false) :=
  complete_directory_sweep_spec 5 false Depth.unknown false (fun _ => false) entriesEx
    ⟨3, none, .dir, .normal, false, false, true, .infinity, none⟩ (by decide) (by decide)

/-! ## `set_target_revision` (update_editor.c:1277)

The edit baton's `target_revision` field is a shared cell: the editor
writes it here and every other callback only reads it (in the embedding
the other operations receive the target revision as a plain immutable
argument, so they cannot write the cell by construction). -/

/-- The fields of `struct edit_baton` that persist across callbacks.
`target_revision` is the shared revision cell. -/
structure EditBaton where
  anchor : String
  target : String
  targetRevision : RevNum
  switchUrl : Option String
  repos : Option String
  uuid : Option String
  useCommitTimes : Bool
  depthIsSticky : Bool
  allowUnverObstructions : Bool
  requestedDepth : Depth
  rootOpened : Bool
  targetDeleted : Bool
  skippedTrees : List String
  deletedTrees : List String
  deriving DecidableEq, Repr

/-- `set_target_revision` (update_editor.c:1277): stash the target revision
in the baton; nothing else happens. -/
def set_target_revision (eb : EditBaton) (targetRevision : RevNum) : EditBaton :=
  { eb with targetRevision := targetRevision }

/-- C9: `set_target_revision(rev)` stores `rev` into the edit's shared
target-revision cell and touches nothing else: every other field of the
edit baton is unchanged.  (That the cell is only read afterwards is
reflected in the embedding itself: every other modelled operation takes
the target revision as an immutable argument.) -/
theorem set_target_revision_only_stores_rev (eb : EditBaton) (rev : RevNum) :
    (set_target_revision eb rev).targetRevision = rev ∧
    (set_target_revision eb rev).anchor = eb.anchor ∧
    (set_target_revision eb rev).target = eb.target ∧
    (set_target_revision eb rev).switchUrl = eb.switchUrl ∧
    (set_target_revision eb rev).repos = eb.repos ∧
    (set_target_revision eb rev).uuid = eb.uuid ∧
    (set_target_revision eb rev).useCommitTimes = eb.useCommitTimes ∧
    (set_target_revision eb rev).depthIsSticky = eb.depthIsSticky ∧
    (set_target_revision eb rev).allowUnverObstructions = eb.allowUnverObstructions ∧
    (set_target_revision eb rev).requestedDepth = eb.requestedDepth ∧
    (set_target_revision eb rev).rootOpened = eb.rootOpened ∧
    (set_target_revision eb rev).targetDeleted = eb.targetDeleted ∧
    (set_target_revision eb rev).skippedTrees = eb.skippedTrees ∧
    (set_target_revision eb rev).deletedTrees = eb.deletedTrees := by
  repeat' constructor

/-! ## `close_edit` (update_editor.c:4667-4756)

`close_edit` calls two helpers whose own behaviour is not at issue here:
`do_entry_deletion` (when the target is missing on disk) and
`complete_directory` (when the root was never opened).  Both are taken as
explicit function parameters, so the theorem is quantified over every
possible behaviour of them; the update-cleanup sweep itself
(`svn_wc__do_update_cleanup`, in libsvn_wc/adm_ops.c, outside the sources
under analysis) is modelled from the specification below. -/

/-- The state seen by `close_edit`: the edit baton and the on-disk
entries of every versioned path in the driven subtree (keyed by path). -/
structure CloseEditState where
  eb : EditBaton
  wc : List (String × Entry)
  deriving DecidableEq, Repr

/-- `anc` is `p` itself or a path ancestor of `p`. -/
def isAncestorPath (anc p : String) : Bool :=
  anc = p || (anc ++ "/").toList.isPrefixOf p.toList

/-- A path is inside a skipped tree if some member of the set is the path
itself or an ancestor of it. -/
def inSkippedTrees (skipped : List String) (p : String) : Bool :=
  skipped.any (fun s => isAncestorPath s p)

/-- Modelled from the spec: `svn_wc__do_update_cleanup` lives in
libsvn_wc/adm_ops.c, which is not among the sources under analysis.  The
spec (§4.7 step 3, §8) says: "walk all non-skipped paths and bump their
recorded revision to the target revision; for a switch, also rewrite URLs
recursively".  `switchRewrite` is `some f` during a switch, where `f`
gives the rewritten URL of each path, and `none` during a plain update. -/
def do_update_cleanup (targetRevision : RevNum) (switchRewrite : Option (String → Option String))
    (skipped : List String) (entries : List (String × Entry)) : List (String × Entry) :=
  entries.map (fun p =>
    if inSkippedTrees skipped p.1 then p
    else (p.1, { p.2 with
      revision := targetRevision,
      url := match switchRewrite with
             | some f => f p.1
             | none => p.2.url }))

/-- Step 1 of `close_edit` (update_editor.c:4678-4688): if there is a
target and it is missing on disk, run `do_entry_deletion` on it. -/
def close_edit_step1 (ded : CloseEditState → CloseEditState) (targetMissing : Bool)
    (s : CloseEditState) : CloseEditState :=
  if s.eb.target ≠ "" ∧ targetMissing then ded s else s

/-- Step 2 of `close_edit` (update_editor.c:4690-4696): if the root was
never opened, run `complete_directory` on the anchor. -/
def close_edit_step2 (compl : String → CloseEditState → CloseEditState)
    (s1 : CloseEditState) : CloseEditState :=
  if ¬ s1.eb.rootOpened then compl s1.eb.anchor s1 else s1

/-- Step 3 of `close_edit` (update_editor.c:4713-4745): unless the target
was deleted, remove every member of `deleted_trees` from `skipped_trees`
and run the update-cleanup sweep over the driven subtree. -/
def close_edit_sweep (switchRewrite : Option (String → Option String))
    (s2 : CloseEditState) : CloseEditState :=
  if ¬ s2.eb.targetDeleted then
    { s2 with
      eb := { s2.eb with
        skippedTrees := s2.eb.skippedTrees.filter (fun p => p ∉ s2.eb.deletedTrees) },
      wc := do_update_cleanup s2.eb.targetRevision switchRewrite
        (s2.eb.skippedTrees.filter (fun p => p ∉ s2.eb.deletedTrees)) s2.wc }
  else s2

/-- `close_edit` (update_editor.c:4667-4756): the three phases in order. -/
def close_edit (ded : CloseEditState → CloseEditState)
    (compl : String → CloseEditState → CloseEditState)
    (switchRewrite : Option (String → Option String))
    (targetMissing : Bool) (s : CloseEditState) : CloseEditState :=
  close_edit_sweep switchRewrite
    (close_edit_step2 compl (close_edit_step1 ded targetMissing s))

/-- C1: when the target is not missing on disk (so step 1 is a no-op),
`close_edit` runs `complete_directory` on the anchor exactly when the
root was never opened (captured by `s2` below), performs the
update-cleanup sweep exactly when `target_deleted` is false, and the
sweep first removes every member of `deleted_trees` from `skipped_trees`
and then bumps the recorded revision of every non-skipped entry to the
target revision (rewriting URLs when a switch rewriter is given), so that
afterwards every non-skipped entry of the driven subtree reports the
target revision.  The theorem is quantified over the behaviours `ded` and
`compl` of the two helpers. -/
theorem close_edit_spec
    (ded : CloseEditState → CloseEditState)
    (compl : String → CloseEditState → CloseEditState)
    (switchRewrite : Option (String → Option String))
    (targetMissing : Bool) (s : CloseEditState)
    (hmiss : ¬ (s.eb.target ≠ "" ∧ targetMissing)) :
    let s2 := if s.eb.rootOpened then s else compl s.eb.anchor s
    let skipped' := s2.eb.skippedTrees.filter (fun p => p ∉ s2.eb.deletedTrees)
    (s2.eb.targetDeleted = true →
      close_edit ded compl switchRewrite targetMissing s = s2) ∧
    (s2.eb.targetDeleted = false →
      close_edit ded compl switchRewrite targetMissing s =
        { s2 with
          eb := { s2.eb with skippedTrees := skipped' },
          wc := do_update_cleanup s2.eb.targetRevision switchRewrite skipped' s2.wc } ∧
      ∀ p e, (p, e) ∈ (close_edit ded compl switchRewrite targetMissing s).wc →
        inSkippedTrees skipped' p = false →
        e.revision = s2.eb.targetRevision) := by
  intro s2 skipped'
  have hstep1 : close_edit_step1 ded targetMissing s = s := if_neg hmiss
  have hs2 : close_edit_step2 compl s = s2 := by
    unfold close_edit_step2
    show _ = if s.eb.rootOpened then s else compl s.eb.anchor s
    by_cases hro : s.eb.rootOpened <;> simp [hro]
  have hbody : close_edit ded compl switchRewrite targetMissing s =
      (if ¬ s2.eb.targetDeleted then
        { s2 with
          eb := { s2.eb with skippedTrees := skipped' },
          wc := do_update_cleanup s2.eb.targetRevision switchRewrite skipped' s2.wc }
      else s2) := by
    unfold close_edit
    rw [hstep1, hs2]
    unfold close_edit_sweep
    rfl
  constructor
  · intro htd
    rw [hbody, if_neg (by simp [htd])]
  · intro htd
    have hres : close_edit ded compl switchRewrite targetMissing s =
        { s2 with
          eb := { s2.eb with skippedTrees := skipped' },
          wc := do_update_cleanup s2.eb.targetRevision switchRewrite skipped' s2.wc } := by
      rw [hbody, if_pos (by simp [htd])]
    refine ⟨hres, ?_⟩
    intro p e hmem hnsk
    rw [hres] at hmem
    have hmem' : (p, e) ∈ do_update_cleanup s2.eb.targetRevision switchRewrite skipped' s2.wc :=
      hmem
    unfold do_update_cleanup at hmem'
    obtain ⟨a, ha, hfa⟩ := List.mem_map.mp hmem'
    by_cases hsk : inSkippedTrees skipped' a.1
    · rw [if_pos hsk] at hfa
      have : a.1 = p := congrArg Prod.fst hfa
      rw [this] at hsk
      rw [hnsk] at hsk
      exact absurd hsk (by simp)
    · rw [if_neg hsk] at hfa
      have h2 := congrArg (fun q : String × Entry => q.2.revision) hfa
      simpa using h2.symm

/-- A small edit about to close: root opened, target not deleted, one
skipped tree and one locally deleted tree. -/
def closeEditEx : CloseEditState :=
  { eb := { anchor := "wc", target := "", targetRevision := 7, switchUrl := none,
            repos := none, uuid := none, useCommitTimes := false, depthIsSticky := false,
            allowUnverObstructions := false, requestedDepth := .infinity,
            rootOpened := true, targetDeleted := false,
            skippedTrees := ["wc/skip", "wc/del"], deletedTrees := ["wc/del"] },
    wc := [("wc", ⟨3, none, .dir, .normal, false, false, false, .infinity, none⟩),
           ("wc/a", ⟨3, none, .file, .normal, false, false, false, .infinity, none⟩),
           ("wc/skip", ⟨3, none, .dir, .normal, false, false, false, .infinity, none⟩),
           ("wc/del", ⟨3, none, .dir, .normal, false, false, false, .infinity, none⟩)] }

theorem close_edit_spec_witness :
    (closeEditEx.eb.targetDeleted = true →
      close_edit id (fun _ t => t) none false closeEditEx = closeEditEx) ∧
    (closeEditEx.eb.targetDeleted = false →
      close_edit id (fun _ t => t) none false closeEditEx =
        { closeEditEx with
          eb := { closeEditEx.eb with skippedTrees :=
            closeEditEx.eb.skippedTrees.filter (fun p => p ∉ closeEditEx.eb.deletedTrees) },
          wc := do_update_cleanup closeEditEx.eb.targetRevision none
            (closeEditEx.eb.skippedTrees.filter (fun p => p ∉ closeEditEx.eb.deletedTrees))
            closeEditEx.wc } ∧
      ∀ p e, (p, e) ∈ (close_edit id (fun _ t => t) none false closeEditEx).wc →
        inSkippedTrees (closeEditEx.eb.skippedTrees.filter
          (fun p => p ∉ closeEditEx.eb.deletedTrees)) p = false →
        e.revision = closeEditEx.eb.targetRevision) :=
  close_edit_spec id (fun _ t => t) none false closeEditEx (by decide)

/-! ## `close_file` and `apply_textdelta` (update_editor.c:4558, 3838)

The merge itself (`merge_file`, update_editor.c:4110-4552) and the
post-check part of `apply_textdelta` (building the window handler, lines
3886-3963) are taken as function parameters: the theorems hold for every
behaviour of them.  `svn_checksum_match` lives in libsvn_subr/checksum.c,
outside the sources under analysis, and is modelled from its API
contract. -/

/-- Notification states, mirroring `svn_wc_notify_state_t`. -/
inductive NotifyState where
  | unknown
  | unchanged
  | changed
  | merged
  | conflicted
  deriving DecidableEq, Repr

/-- Lock states, mirroring `svn_wc_notify_lock_state_t`. -/
inductive LockState where
  | unchanged
  | locked
  | unlocked
  deriving DecidableEq, Repr

/-- The fields of `struct file_baton` (update_editor.c:883-978) that the
modelled operations read or write. -/
structure FileBaton where
  path : String
  skipped : Bool
  added : Bool
  addedWithHistory : Bool
  receivedTextdelta : Bool
  textBasePath : Option String
  newTextBasePath : Option String
  actualChecksum : Option String
  copiedTextBase : Option String
  copiedBaseChecksum : Option String
  treeConflicted : Bool
  deleted : Bool
  bumpId : Nat
  deriving DecidableEq, Repr

/-- The working-copy state seen by the file operations: the completion
tracker, the notified paths, the parent directory's log buffer (opaque
commands) and the entries. -/
structure FileOpState where
  bumps : DriveState
  notifications : List String
  dirLogAccum : List String
  entries : List (String × Entry)
  deriving DecidableEq, Repr

/-- Modelled from the spec: `svn_checksum_match` (libsvn_subr/checksum.c,
not among the sources under analysis) reports a match whenever either
checksum is missing. -/
def svn_checksum_match (a b : Option String) : Bool :=
  match a, b with
  | some x, some y => x = y
  | _, _ => true

/-- A path is inside a locally deleted tree (`in_deleted_tree` with
`include_root`, update_editor.c:285-303). -/
def inDeletedTree (deletedTrees : List String) (p : String) : Bool :=
  deletedTrees.any (fun s => isAncestorPath s p)

/-- Dropping a file baton's reference on the tracker (the
`maybe_bump_dir_info` call of `close_file`). -/
def closeFileBump (i : Nat) (s : FileOpState) : FileOpState :=
  { s with bumps := maybe_bump_from i { s.bumps with files := s.bumps.files.erase i } }

/-- The choice of checksum and new text base in `close_file`
(update_editor.c:4578-4599): an add-with-history that received no text
delta uses the copied base, otherwise the values computed by the window
handler. -/
def close_file_pick (fb : FileBaton) : Option String × Option String :=
  if fb.addedWithHistory ∧ ¬ fb.receivedTextdelta
  then (fb.copiedBaseChecksum, fb.copiedTextBase)
  else (fb.actualChecksum, fb.newTextBasePath)

/-- The abstract type of `merge_file`: from the file baton, the new text
base and the actual checksum produce a new state together with the
content, property and lock outcome. -/
def MergeFile : Type :=
  FileBaton → Option String → Option String → FileOpState →
    FileOpState × NotifyState × NotifyState × LockState

/-- The tail of `close_file` (update_editor.c:4611-4662): run
`merge_file`, drop the bump reference, and notify unless nothing changed
or the file is inside a locally deleted tree. -/
def close_file_merge_path (mergef : MergeFile) (eb : EditBaton) (hasNotify : Bool)
    (fb : FileBaton) (newBasePath actualChecksum : Option String)
    (s : FileOpState) : FileOpState :=
  match mergef fb newBasePath actualChecksum s with
  | (s1, contentState, propState, lockState) =>
    let s2 := closeFileBump fb.bumpId s1
    if (contentState ≠ NotifyState.unchanged ∨ propState ≠ NotifyState.unchanged ∨
        lockState ≠ LockState.unchanged ∨ fb.treeConflicted) ∧ hasNotify ∧
        ¬ inDeletedTree eb.deletedTrees fb.path
    then { s2 with notifications := fb.path :: s2.notifications }
    else s2

/-- `close_file` (update_editor.c:4558-4663): a skipped file only drops
its bump reference; otherwise the expected digest is compared against the
checksum computed for the new text base, a mismatch failing with
`checksum_mismatch` before `merge_file` runs. -/
def close_file (mergef : MergeFile) (eb : EditBaton) (hasNotify : Bool)
    (fb : FileBaton) (expectedHexDigest : Option String) (s : FileOpState) :
    Option Err × FileOpState :=
  if fb.skipped then (none, closeFileBump fb.bumpId s)
  else if (close_file_pick fb).2.isSome ∧ expectedHexDigest.isSome ∧
      svn_checksum_match expectedHexDigest (close_file_pick fb).1 = false then
    (some Err.checksumMismatch, s)
  else
    (none, close_file_merge_path mergef eb hasNotify fb
      (close_file_pick fb).2 (close_file_pick fb).1 s)

/-- C3: for a non-skipped `close_file` with an expected digest, a new
text base whose computed checksum differs from the digest fails with
`checksum_mismatch` before `merge_file` runs, leaving the state (working
file, entries, logs, notifications) unchanged — for every behaviour of
`merge_file`; when the checksums match or no digest was supplied,
`close_file` proceeds into the merge path. -/
theorem close_file_checksum_guard :
    (∀ (mergef : MergeFile) (eb : EditBaton) (hasNotify : Bool) (fb : FileBaton)
        (d a : String) (s : FileOpState),
      fb.skipped = false →
      (close_file_pick fb).2.isSome = true →
      (close_file_pick fb).1 = some a → a ≠ d →
      close_file mergef eb hasNotify fb (some d) s = (some Err.checksumMismatch, s)) ∧
    (∀ (mergef : MergeFile) (eb : EditBaton) (hasNotify : Bool) (fb : FileBaton)
        (expected : Option String) (s : FileOpState),
      fb.skipped = false →
      svn_checksum_match expected (close_file_pick fb).1 = true →
      close_file mergef eb hasNotify fb expected s =
        (none, close_file_merge_path mergef eb hasNotify fb
          (close_file_pick fb).2 (close_file_pick fb).1 s)) := by
  constructor
  · intro mergef eb hasNotify fb d a s hsk hbase hact hne
    unfold close_file
    rw [hsk]
    rw [if_neg (by simp)]
    rw [if_pos ?_]
    rw [hact]
    unfold svn_checksum_match
    refine ⟨hbase, by simp, ?_⟩
    simp only [decide_eq_true_eq]
    simpa using fun h => hne h.symm
  · intro mergef eb hasNotify fb expected s hsk hmatch
    unfold close_file
    rw [hsk]
    rw [if_neg (by simp)]
    rw [if_neg ?_]
    intro ⟨_, _, hbad⟩
    rw [hmatch] at hbad
    exact Bool.noConfusion hbad

/-- C10: `close_file` on a skipped file baton only decrements the parent
directory's bump record (possibly cascading completion) — for every merge
behaviour and every expected digest: no error is possible (so no checksum
verification happens), and notifications, the directory log buffer and
the entries are untouched. -/
theorem close_file_skipped_frame
    (mergef : MergeFile) (eb : EditBaton) (hasNotify : Bool) (fb : FileBaton)
    (expected : Option String) (s : FileOpState)
    (hsk : fb.skipped = true) :
    close_file mergef eb hasNotify fb expected s = (none, closeFileBump fb.bumpId s) ∧
    (close_file mergef eb hasNotify fb expected s).2.bumps =
      maybe_bump_from fb.bumpId { s.bumps with files := s.bumps.files.erase fb.bumpId } ∧
    (close_file mergef eb hasNotify fb expected s).2.notifications = s.notifications ∧
    (close_file mergef eb hasNotify fb expected s).2.dirLogAccum = s.dirLogAccum ∧
    (close_file mergef eb hasNotify fb expected s).2.entries = s.entries := by
  have h : close_file mergef eb hasNotify fb expected s =
      (none, closeFileBump fb.bumpId s) := by
    unfold close_file
    rw [hsk]
    simp
  refine ⟨h, ?_, ?_, ?_, ?_⟩ <;> rw [h] <;> rfl

/-- A merge behaviour that changes nothing, used by the witnesses. -/
def mergeNoop : MergeFile :=
  fun _ _ _ s => (s, NotifyState.unchanged, NotifyState.unchanged, LockState.unchanged)

/-- A non-skipped file baton whose new text base has checksum "aaa". -/
def fbEx : FileBaton :=
  { path := "wc/a.txt", skipped := false, added := false, addedWithHistory := false,
    receivedTextdelta := true, textBasePath := none,
    newTextBasePath := some "tmp/base", actualChecksum := some "aaa",
    copiedTextBase := none, copiedBaseChecksum := none, treeConflicted := false,
    deleted := false, bumpId := 0 }

/-- The same baton, skipped. -/
def fbSkipEx : FileBaton := { fbEx with skipped := true }

/-- A small file-operation state: one open file on the root record. -/
def fsEx : FileOpState :=
  { bumps := ⟨[⟨none, 2, "wc", false⟩], [0], [0], []⟩,
    notifications := [], dirLogAccum := [], entries := [] }

theorem close_file_checksum_guard_witness :
    (close_file mergeNoop closeEditEx.eb true fbEx (some "bbb") fsEx =
      (some Err.checksumMismatch, fsEx)) ∧
    (close_file mergeNoop closeEditEx.eb true fbEx (some "aaa") fsEx =
      (none, close_file_merge_path mergeNoop closeEditEx.eb true fbEx
        (close_file_pick fbEx).2 (close_file_pick fbEx).1 fsEx)) :=
  ⟨close_file_checksum_guard.1 mergeNoop closeEditEx.eb true fbEx "bbb" "aaa" fsEx rfl rfl rfl
      (by decide),
   close_file_checksum_guard.2 mergeNoop closeEditEx.eb true fbEx (some "aaa") fsEx rfl
      (by decide)⟩

theorem close_file_skipped_frame_witness :
    (close_file mergeNoop closeEditEx.eb true fbSkipEx (some "zzz") fsEx =
      (none, closeFileBump fbSkipEx.bumpId fsEx) ∧
    (close_file mergeNoop closeEditEx.eb true fbSkipEx (some "zzz") fsEx).2.bumps =
      maybe_bump_from fbSkipEx.bumpId
        { fsEx.bumps with files := fsEx.bumps.files.erase fbSkipEx.bumpId } ∧
    (close_file mergeNoop closeEditEx.eb true fbSkipEx (some "zzz") fsEx).2.notifications =
      fsEx.notifications ∧
    (close_file mergeNoop closeEditEx.eb true fbSkipEx (some "zzz") fsEx).2.dirLogAccum =
      fsEx.dirLogAccum ∧
    (close_file mergeNoop closeEditEx.eb true fbSkipEx (some "zzz") fsEx).2.entries =
      fsEx.entries) :=
  close_file_skipped_frame mergeNoop closeEditEx.eb true fbSkipEx (some "zzz") fsEx rfl

/-- Modelled from the spec: the permanent text-base path of a file
(§6 persisted state: `.admin/text-base/<name>.svn-base`; the
`.svn-revert` variant for replaced nodes). -/
def svn_wc_text_base_path (path : String) (revert : Bool) : String :=
  if revert then path ++ ".svn-revert" else path ++ ".svn-base"

/-- `choose_base_paths` (update_editor.c:3800-3834): the permanent text
base (the revert base for a schedule-replace entry), the entry's recorded
checksum, and whether the entry is replaced. -/
def choose_base_paths (entries : List (String × Entry)) (path : String) :
    String × Option String × Bool :=
  match lookupName path entries with
  | some e =>
    (svn_wc_text_base_path path (decide (e.schedule = Schedule.replace)),
     e.checksum, decide (e.schedule = Schedule.replace))
  | none => (svn_wc_text_base_path path false, none, false)

/-- The file-baton updates performed by `apply_textdelta` before its base
checksum check (update_editor.c:3861-3870). -/
def applyTdFb (fb : FileBaton) (textBase : String) : FileBaton :=
  { fb with receivedTextdelta := true, textBasePath := some textBase }

/-- The abstract type of the post-check part of `apply_textdelta`
(choosing the source stream, opening the writable base and building the
window handler, update_editor.c:3886-3963): from the updated baton, the
chosen text-base path, the recorded checksum and the replaced flag. -/
def TextdeltaRest : Type :=
  FileBaton → String → Option String → Bool → FileOpState →
    Option Err × FileOpState × FileBaton

/-- `apply_textdelta` (update_editor.c:3838-3964) up to and including the
base checksum check: a skipped file gets a no-op window handler;
otherwise the file's recorded pristine checksum must match a supplied
base checksum — except for schedule-replace files — or the call fails
with `corrupt_text_base` before anything is opened or written. -/
def apply_textdelta (k : TextdeltaRest) (fb : FileBaton) (baseChecksum : Option String)
    (s : FileOpState) : Option Err × FileOpState × FileBaton :=
  if fb.skipped then (none, s, fb)
  else if ¬ (choose_base_paths s.entries fb.path).2.2 ∧
      (choose_base_paths s.entries fb.path).2.1.isSome ∧ baseChecksum.isSome ∧
      (choose_base_paths s.entries fb.path).2.1 ≠ baseChecksum then
    (some Err.corruptTextBase, s, applyTdFb fb (choose_base_paths s.entries fb.path).1)
  else
    k (applyTdFb fb (choose_base_paths s.entries fb.path).1)
      (choose_base_paths s.entries fb.path).1
      (choose_base_paths s.entries fb.path).2.1
      (choose_base_paths s.entries fb.path).2.2 s

/-- C4: for a non-skipped `apply_textdelta` with a supplied base
checksum, if the entry records a pristine checksum, the entry is not
schedule-replace and the two checksums differ, the call fails with
`corrupt_text_base` and the state (working file, pristine store) is
unchanged — for every behaviour of the post-check continuation; the
check is skipped (the continuation runs) when the entry is replaced or
either checksum is absent. -/
theorem apply_textdelta_base_checksum_guard :
    (∀ (k : TextdeltaRest) (fb : FileBaton) (s : FileOpState) (e : Entry)
        (recorded b : String),
      fb.skipped = false →
      lookupName fb.path s.entries = some e →
      e.schedule ≠ Schedule.replace →
      e.checksum = some recorded →
      recorded ≠ b →
      apply_textdelta k fb (some b) s =
        (some Err.corruptTextBase, s,
          applyTdFb fb (svn_wc_text_base_path fb.path false))) ∧
    (∀ (k : TextdeltaRest) (fb : FileBaton) (baseChecksum : Option String) (s : FileOpState),
      fb.skipped = false →
      ((choose_base_paths s.entries fb.path).2.2 = true ∨
        (choose_base_paths s.entries fb.path).2.1 = none ∨ baseChecksum = none) →
      apply_textdelta k fb baseChecksum s =
        k (applyTdFb fb (choose_base_paths s.entries fb.path).1)
          (choose_base_paths s.entries fb.path).1
          (choose_base_paths s.entries fb.path).2.1
          (choose_base_paths s.entries fb.path).2.2 s) := by
  constructor
  · intro k fb s e recorded b hsk hent hsch hcs hne
    have hcb : choose_base_paths s.entries fb.path =
        (svn_wc_text_base_path fb.path false, some recorded, false) := by
      unfold choose_base_paths
      rw [hent]
      show (svn_wc_text_base_path fb.path (decide (e.schedule = Schedule.replace)),
        e.checksum, decide (e.schedule = Schedule.replace)) = _
      rw [hcs, decide_eq_false hsch]
    unfold apply_textdelta
    rw [hsk]
    rw [if_neg (by simp)]
    rw [hcb]
    rw [if_pos ?_]
    · refine ⟨by simp, by simp, by simp, ?_⟩
      simpa using hne
  · intro k fb baseChecksum s hsk hdisj
    unfold apply_textdelta
    rw [hsk]
    rw [if_neg (by simp)]
    rw [if_neg ?_]
    intro ⟨h1, h2, h3, _⟩
    rcases hdisj with hd | hd | hd
    · rw [hd] at h1
      exact h1 rfl
    · rw [hd] at h2
      exact Bool.noConfusion h2
    · rw [hd] at h3
      exact Bool.noConfusion h3

/-- A one-file entries table recording checksum "aaa" for the witness. -/
def tdEntriesEx : List (String × Entry) :=
  [("wc/a.txt", ⟨3, none, .file, .normal, false, false, false, .infinity, some "aaa"⟩)]

/-- A continuation that does nothing, for the witness. -/
def tdRestNoop : TextdeltaRest := fun fb _ _ _ s => (none, s, fb)

theorem apply_textdelta_base_checksum_guard_witness :
    (apply_textdelta tdRestNoop fbEx (some "xxx") { fsEx with entries := tdEntriesEx } =
      (some Err.corruptTextBase, { fsEx with entries := tdEntriesEx },
        applyTdFb fbEx (svn_wc_text_base_path fbEx.path false))) ∧
    (apply_textdelta tdRestNoop fbEx none { fsEx with entries := tdEntriesEx } =
      tdRestNoop
        (applyTdFb fbEx
          (choose_base_paths ({ fsEx with entries := tdEntriesEx } : FileOpState).entries
            fbEx.path).1)
        (choose_base_paths ({ fsEx with entries := tdEntriesEx } : FileOpState).entries
          fbEx.path).1
        (choose_base_paths ({ fsEx with entries := tdEntriesEx } : FileOpState).entries
          fbEx.path).2.1
        (choose_base_paths ({ fsEx with entries := tdEntriesEx } : FileOpState).entries
          fbEx.path).2.2 { fsEx with entries := tdEntriesEx }) :=
  ⟨apply_textdelta_base_checksum_guard.1 tdRestNoop fbEx { fsEx with entries := tdEntriesEx }
      ⟨3, none, .file, .normal, false, false, false, .infinity, some "aaa"⟩ "aaa" "xxx"
      rfl (by decide) (by decide) rfl (by decide),
   apply_textdelta_base_checksum_guard.2 tdRestNoop fbEx none
      { fsEx with entries := tdEntriesEx } rfl (Or.inr (Or.inr rfl))⟩

/-! ## `locate_copyfrom` (update_editor.c:3109-3274)

Repository filesystem paths and URLs are modelled as component lists, so
`svn_path_get_longest_ancestor` is the longest common component run,
`svn_uri_is_child` is component-list subtraction and `apr_pstrcat` is
append.  The filesystem root `/` is the empty component list, so the
`strlen(ancestor_fs_path) == 0` early return also covers an ancestry of
only the root.  The working-copy world is given by three functions:
`ioKind` (`svn_io_check_path`), `getDirEntry` (`svn_wc__get_entry` on a
directory, `none` meaning `SVN_ERR_WC_NOT_WORKING_COPY`) and
`getFileEntry` (`svn_wc__get_entry` on a file, outer `none` meaning
not-a-working-copy, inner `none` a versioned parent without an entry for
the file). -/

/-- The entry fields read by `locate_copyfrom`. -/
structure CfEntry where
  repos : Option (List String)
  url : Option (List String)
  uuid : Option String
  revision : RevNum
  cmtRev : RevNum
  deriving DecidableEq, Repr

/-- Longest common starting run of two component lists
(`svn_path_get_longest_ancestor`). -/
def commonStart : List String → List String → List String
  | a :: as, b :: bs => if a = b then a :: commonStart as bs else []
  | _, _ => []

/-- Subtract a starting run (`svn_uri_is_child`, with the equal case
yielding the empty remainder as at update_editor.c:3149-3150). -/
def stripStart : List String → List String → Option (List String)
  | [], l => some l
  | _ :: _, [] => none
  | a :: as, b :: bs => if a = b then stripStart as bs else none

/-- The C mismatch tests `x && y && strcmp(x, y) != 0`: only two present
and different identifiers mismatch. -/
def uuidMismatch (a b : Option String) : Bool :=
  match a, b with
  | some x, some y => decide (x ≠ y)
  | _, _ => false

/-- `locate_copyfrom` (update_editor.c:3109-3274): starting from the
destination directory, climb to the common ancestor of the destination
and the copyfrom path, verify it, descend to the copyfrom file, and
return it only when every verification holds; any mismatch returns
"not found" (`ok none`). -/
def locate_copyfrom (ioKind : List String → NodeKind)
    (getDirEntry : List String → Option CfEntry)
    (getFileEntry : List String → Option (Option CfEntry))
    (copyfrom_path : List String) (copyfrom_rev : RevNum)
    (dest_dir : List String) (dest_entry : CfEntry) :
    Except Err (Option (List String × CfEntry)) :=
  match dest_entry.repos, dest_entry.url with
  | some drepos, some durl =>
    match stripStart drepos durl with
    | none => .error Err.copyfromPathNotFound
    | some dest_fs_path =>
      let ancestor_fs_path := commonStart dest_fs_path copyfrom_path.dropLast
      if ancestor_fs_path.length = 0 then .ok none
      else
        let cwd := dest_dir.take
          (dest_dir.length - (dest_fs_path.length - ancestor_fs_path.length))
        if ioKind cwd ≠ NodeKind.dir then .ok none
        else
          match getDirEntry cwd with
          | none => .ok none
          | some ancestor_entry =>
            if uuidMismatch dest_entry.uuid ancestor_entry.uuid then .ok none
            else if ancestor_entry.url ≠ some (drepos ++ ancestor_fs_path) then .ok none
            else
              let cwd2 := cwd ++ copyfrom_path.drop ancestor_fs_path.length
              if ioKind cwd2 ≠ NodeKind.file then .ok none
              else
                match getFileEntry cwd2 with
                | none => .ok none
                | some none => .ok none
                | some (some file_entry) =>
                  if uuidMismatch file_entry.uuid dest_entry.uuid then .ok none
                  else
                    match file_entry.repos, file_entry.url with
                    | some frepos, some furl =>
                      if furl ≠ frepos ++ copyfrom_path then .ok none
                      else if ¬ (isValidRev file_entry.cmtRev ∧
                          isValidRev file_entry.revision) then .ok none
                      else if ¬ (file_entry.cmtRev ≤ copyfrom_rev ∧
                          copyfrom_rev ≤ file_entry.revision) then .ok none
                      else .ok (some (cwd2, file_entry))
                    | _, _ => .ok none
  | _, _ => .error Err.copyfromPathNotFound

set_option maxHeartbeats 1600000 in
/-- C5: `locate_copyfrom` returns a local candidate only if every
verification holds: the candidate's repository identity does not
mismatch the destination's, its URL is exactly its repository root
joined with the copyfrom path, both its last-committed and working
revisions are valid, and `cmt_rev ≤ copyfrom_rev ≤ revision`; on any
mismatch the result is "not found" rather than a guess. -/
theorem locate_copyfrom_only_verified
    (ioKind : List String → NodeKind)
    (getDirEntry : List String → Option CfEntry)
    (getFileEntry : List String → Option (Option CfEntry))
    (copyfrom_path : List String) (copyfrom_rev : RevNum)
    (dest_dir : List String) (dest_entry : CfEntry)
    (p : List String) (fe : CfEntry)
    (h : locate_copyfrom ioKind getDirEntry getFileEntry copyfrom_path copyfrom_rev
        dest_dir dest_entry = .ok (some (p, fe))) :
    (∀ u1 u2, fe.uuid = some u1 → dest_entry.uuid = some u2 → u1 = u2) ∧
    (∃ r, fe.repos = some r ∧ fe.url = some (r ++ copyfrom_path)) ∧
    isValidRev fe.cmtRev ∧ isValidRev fe.revision ∧
    fe.cmtRev ≤ copyfrom_rev ∧ copyfrom_rev ≤ fe.revision := by
  unfold locate_copyfrom at h
  split at h
  case h_2 => exact absurd h (by simp)
  case h_1 drepos durl hr hu =>
    split at h
    case h_1 => exact absurd h (by simp)
    case h_2 dest_fs_path hstrip =>
      dsimp only at h
      split at h
      case isTrue => exact absurd h (by simp)
      case isFalse =>
        split at h
        case isTrue => exact absurd h (by simp)
        case isFalse =>
          split at h
          case h_1 => exact absurd h (by simp)
          case h_2 ancestor_entry hanc =>
            split at h
            case isTrue => exact absurd h (by simp)
            case isFalse =>
              split at h
              case isTrue => exact absurd h (by simp)
              case isFalse =>
                split at h
                case isTrue => exact absurd h (by simp)
                case isFalse =>
                  split at h
                  case h_1 => exact absurd h (by simp)
                  case h_2 => exact absurd h (by simp)
                  case h_3 file_entry hfile =>
                    split at h
                    case isTrue => exact absurd h (by simp)
                    case isFalse hmis =>
                      split at h
                      case h_2 => exact absurd h (by simp)
                      case h_1 frepos furl hfr hfu =>
                        split at h
                        case isTrue => exact absurd h (by simp)
                        case isFalse hurl =>
                          split at h
                          case isTrue => exact absurd h (by simp)
                          case isFalse hvalid =>
                            split at h
                            case isTrue => exact absurd h (by simp)
                            case isFalse hrange =>
                              simp only [Except.ok.injEq, Option.some.injEq,
                                Prod.mk.injEq] at h
                              obtain ⟨-, hfe⟩ := h
                              subst hfe
                              push_neg at hurl hvalid hrange
                              refine ⟨?_, ⟨frepos, hfr, ?_⟩,
                                hvalid.1, hvalid.2, hrange.1, hrange.2⟩
                              · intro u1 u2 h1 h2
                                rw [h1, h2] at hmis
                                simpa [uuidMismatch] using hmis
                              · rw [hfu, hurl]

/-- Destination-directory entry for the `locate_copyfrom` witness:
repository root `R`, URL `R/A/B`, uuid `u`. -/
def cfDestEx : CfEntry :=
  ⟨some ["R"], some ["R", "A", "B"], some "u", 5, 3⟩

/-- Common-ancestor directory entry for the witness: URL `R/A`, same uuid. -/
def cfAncEx : CfEntry :=
  ⟨some ["R"], some ["R", "A"], some "u", 5, 3⟩

/-- Candidate file entry for the witness: URL `R/A/mu`, same uuid,
last-committed revision 2, working revision 6. -/
def cfFileEx : CfEntry :=
  ⟨some ["R"], some ["R", "A", "mu"], some "u", 6, 2⟩

/-- Witness disk: `wc` is a directory, `wc/mu` a file. -/
def cfIoKindEx (p : List String) : NodeKind :=
  if p = ["wc"] then NodeKind.dir
  else if p = ["wc", "mu"] then NodeKind.file
  else NodeKind.none

/-- Witness directory entries: only `wc` is a versioned directory. -/
def cfGetDirEx (p : List String) : Option CfEntry :=
  if p = ["wc"] then some cfAncEx else none

/-- Witness file entries: `wc/mu` is a versioned file. -/
def cfGetFileEx (p : List String) : Option (Option CfEntry) :=
  if p = ["wc", "mu"] then some (some cfFileEx) else none

/-- Witness for C5: destination `wc/B` (repository path `/A/B`) and
copyfrom `/A/mu@4`; the locator finds `wc/mu`, and the theorem yields all
the verified facts about it. -/
theorem locate_copyfrom_only_verified_witness :
    (∀ u1 u2, cfFileEx.uuid = some u1 → cfDestEx.uuid = some u2 → u1 = u2) ∧
    (∃ r, cfFileEx.repos = some r ∧ cfFileEx.url = some (r ++ ["A", "mu"])) ∧
    isValidRev cfFileEx.cmtRev ∧ isValidRev cfFileEx.revision ∧
    cfFileEx.cmtRev ≤ 4 ∧ (4 : RevNum) ≤ cfFileEx.revision :=
  locate_copyfrom_only_verified cfIoKindEx cfGetDirEx cfGetFileEx
    ["A", "mu"] 4 ["wc", "B"] cfDestEx ["wc", "mu"] cfFileEx (by rfl)

/-! ## `open_directory` (update_editor.c:2616-2750)

The external queries of `open_directory` are given as data in an
`OpenDirWorld`: `already_in_a_tree_conflict`, the conflict
`check_tree_conflict` would raise, and `svn_wc__internal_conflicted_p`.
The entry modification of lines 2733-2749 is recorded as the written
(revision, URL, incomplete) triple (the conditional `repos` field of the
modification, lines 2740-2744, is not tracked). -/

/-- `svn_wc_conflict_reason_t`. -/
inductive ConflictReason
  | edited
  | obstructed
  | deleted
  | missing
  | unversioned
  | added
  | replaced
  deriving DecidableEq, Repr

/-- `in_deleted_tree` with `include_root = FALSE` (update_editor.c:286-303):
the path's dirname is looked up, so only a proper ancestor of the path
counts. -/
def inDeletedTreeProper (deletedTrees : List String) (p : String) : Bool :=
  deletedTrees.any (fun s => (s ++ "/").toList.isPrefixOf p.toList)

/-- The working-copy facts `open_directory` consults. -/
structure OpenDirWorld where
  alreadyConflicted : Bool
  freshConflict : Option ConflictReason
  propConflicted : Bool
  deriving DecidableEq, Repr

/-- What `open_directory` did: whether the directory's bump record was
marked skipped, the skipped/deleted tree sets afterwards, the
notification (`some true` = skip for a property conflict, `some false` =
tree conflict, `none` = silent), and the THIS_DIR entry modification
(revision, URL, incomplete), `none` when the entry was not touched. -/
structure OpenDirOutcome where
  bumpSkipped : Bool
  skippedTrees : List String
  deletedTrees : List String
  notification : Option Bool
  entryModify : Option (RevNum × String × Bool)
  deriving DecidableEq, Repr

/-- `open_directory` (update_editor.c:2616-2750): skip silently inside an
already-skipped, not locally deleted tree; otherwise raise/record
conflicts, and return before the entry modification exactly when a
property conflict was found or a fresh tree conflict has a reason other
than `deleted`/`replaced`; in every other case mark the directory's
entry as (target revision, new URL, incomplete). -/
def open_directory (eb : EditBaton) (w : OpenDirWorld)
    (full_path new_URL : String) : OpenDirOutcome :=
  if inSkippedTrees eb.skippedTrees full_path &&
      !inDeletedTree eb.deletedTrees full_path then
    ⟨true, eb.skippedTrees, eb.deletedTrees, none, none⟩
  else
    let tree_conflict := if w.alreadyConflicted then none else w.freshConflict
    let isDelRepl := match tree_conflict with
      | some ConflictReason.deleted => true
      | some ConflictReason.replaced => true
      | _ => false
    let deletedTrees1 :=
      if isDelRepl && !inDeletedTree eb.deletedTrees full_path then
        full_path :: eb.deletedTrees
      else eb.deletedTrees
    if w.alreadyConflicted || tree_conflict.isSome || w.propConflicted then
      let bumpSkipped := !inDeletedTree deletedTrees1 full_path
      let notification :=
        if !inDeletedTreeProper deletedTrees1 full_path then
          some w.propConflicted
        else none
      if w.propConflicted || (tree_conflict.isSome && !isDelRepl) then
        ⟨bumpSkipped, full_path :: eb.skippedTrees, deletedTrees1,
          notification, none⟩
      else
        ⟨bumpSkipped, full_path :: eb.skippedTrees, deletedTrees1,
          notification, some (eb.targetRevision, new_URL, true)⟩
    else
      ⟨false, eb.skippedTrees, deletedTrees1, none,
        some (eb.targetRevision, new_URL, true)⟩

/-- Edit baton for the `open_directory` examples: target revision 9, no
skipped or deleted trees yet. -/
def ebOdEx : EditBaton :=
  ⟨"wc", "", 9, none, some "http://s/R", some "u", false, false, false,
    Depth.infinity, true, false, [], []⟩

/-- C6, counterexample: on a path not inside an already-skipped tree but
carrying a property-conflict marker, `open_directory` returns after
recording the skip without setting the entry to the target revision --
contradicting "regardless of whether a tree conflict or existing
property-conflict marker was found ... the directory's own entry is set
to the target revision and the new URL with incomplete=true". -/
theorem open_directory_prop_conflict_skips_entry :
    inSkippedTrees ebOdEx.skippedTrees "wc/d" = false ∧
    (open_directory ebOdEx ⟨false, none, true⟩ "wc/d" "http://s/R/d").entryModify
      = none := by
  constructor
  · rfl
  · rfl

/-- C6 (amended): on a path not inside an already-skipped (and not
locally deleted) tree, `open_directory` sets the directory's entry to
the target revision and the new URL with incomplete=true, unless a
property conflict was found or a fresh tree conflict with a reason other
than `deleted`/`replaced` was raised, in which cases it returns after
recording the skip without touching the entry (update_editor.c:2726-2730). -/
theorem open_directory_sets_entry_unless_blocked
    (eb : EditBaton) (w : OpenDirWorld) (full_path new_URL : String)
    (hskip : (inSkippedTrees eb.skippedTrees full_path &&
      !inDeletedTree eb.deletedTrees full_path) = false)
    (hprop : w.propConflicted = false)
    (hreason : ∀ r,
      (if w.alreadyConflicted then none else w.freshConflict) = some r →
      r = ConflictReason.deleted ∨ r = ConflictReason.replaced) :
    (open_directory eb w full_path new_URL).entryModify =
      some (eb.targetRevision, new_URL, true) := by
  unfold open_directory
  rw [hskip]
  cases hac : w.alreadyConflicted with
  | true => simp [hprop, hac]
  | false =>
    cases hfc : w.freshConflict with
    | none => simp [hprop, hac, hfc]
    | some r =>
      rcases hreason r (by simp [hac, hfc]) with hr | hr <;>
        subst hr <;> simp [hprop, hac, hfc]

/-- Witness for C6 (amended): a conflict-free `open_directory` call on a
fresh path sets the entry to (revision 9, new URL, incomplete). -/
theorem open_directory_sets_entry_unless_blocked_witness :
    (open_directory ebOdEx ⟨false, none, false⟩ "wc/e" "http://s/R/e").entryModify
      = some (9, "http://s/R/e", true) :=
  open_directory_sets_entry_unless_blocked ebOdEx ⟨false, none, false⟩
    "wc/e" "http://s/R/e" (by rfl) rfl
    (fun r h => by simp at h)

/-! ## `check_path_under_root` and its call sites (CVE-2007-3846)

`check_path_under_root` (update_editor.c:1250-1271) guards the five
add/open operations.  The on-disk state each operation can touch is a
`WcOpState`: the entries, the log commands already written to numbered
log files, the parent baton's accumulated-but-unwritten log commands,
and the notifications sent.  The remainder of each operation past the
guard is a continuation parameter. -/

/-- The path components of a child name, splitting at both `/` and the
Windows separator. -/
def segsAux : List Char → List Char → List (List Char)
  | [], acc => [acc.reverse]
  | c :: cs, acc =>
    if c = '/' ∨ c = '\x5c' then acc.reverse :: segsAux cs []
    else segsAux cs (c :: acc)

/-- Modelled from the spec: `svn_dirent_is_under_root` lives in
libsvn_subr/dirent_uri.c, which is not among the sources under analysis.
The spec (§5) says the guard must "verify that joining the child name to
the parent's path yields a path still rooted under the parent on the
local filesystem (rejects `..\x` attacks)"; a path containing a `..`
segment is rejected. -/
def svn_dirent_is_under_root (base_path add_path : String) : Bool :=
  (segsAux add_path.toList []).all (fun seg => seg ≠ ['.', '.'])

/-- `check_path_under_root` (update_editor.c:1250-1271):
`some obstructed_update` when joining `add_path` to `base_path` escapes
`base_path`, `none` (success) otherwise. -/
def check_path_under_root (base_path add_path : String) : Option Err :=
  if svn_dirent_is_under_root base_path add_path then none
  else some Err.obstructedUpdate

/-- The on-disk working-copy state an editor operation can touch. -/
structure WcOpState where
  entries : List (String × Entry)
  logged : List String
  buffer : List String
  notifications : List String
  deriving DecidableEq, Repr

/-- `flush_log` (update_editor.c:476-492): write the accumulated log
commands of the directory baton to the next numbered log file; the
effective command stream `logged ++ buffer` is unchanged. -/
def flush_log (s : WcOpState) : WcOpState :=
  { s with logged := s.logged ++ s.buffer, buffer := [] }

namespace PathCheck

/-- `delete_entry` (update_editor.c:2208-2222): check the child
basename under the parent's path, then hand over to
`do_entry_deletion` (the continuation `k`). -/
def delete_entry (pb_path name : String)
    (k : WcOpState → WcOpState × Option Err) (s : WcOpState) :
    WcOpState × Option Err :=
  match check_path_under_root pb_path name with
  | some e => (s, some e)
  | none => k s

/-- `add_directory` (update_editor.c:2226-2277 prefix): flush the
parent's log, assert the copyfrom arguments are both present or both
absent, then check the child name before any further work. -/
def add_directory (pb_path name : String) (copyfrom_path : Option String)
    (copyfrom_rev : RevNum) (k : WcOpState → WcOpState × Option Err)
    (s : WcOpState) : WcOpState × Option Err :=
  if ¬ ((copyfrom_path.isSome ∧ isValidRev copyfrom_rev) ∨
      (copyfrom_path = none ∧ ¬ isValidRev copyfrom_rev)) then
    (flush_log s, some Err.assertionFail)
  else
    match check_path_under_root pb_path name with
    | some e => (flush_log s, some e)
    | none => k (flush_log s)

/-- `open_directory` (update_editor.c:2616-2646 prefix): flush the
parent's log, then check the child name before any further work. -/
def open_directory (pb_path name : String)
    (k : WcOpState → WcOpState × Option Err) (s : WcOpState) :
    WcOpState × Option Err :=
  match check_path_under_root pb_path name with
  | some e => (flush_log s, some e)
  | none => k (flush_log s)

/-- `add_file` (update_editor.c:3443-3509 prefix): reject mixed copyfrom
arguments, return success early (marking the file baton skipped) inside
an already-skipped, not locally deleted tree, and only then check the
child name. -/
def add_file (skippedTrees deletedTrees : List String)
    (full_path pb_path name : String) (copyfrom_path : Option String)
    (copyfrom_rev : RevNum) (k : WcOpState → WcOpState × Option Err)
    (s : WcOpState) : WcOpState × Option Err :=
  if (copyfrom_path.isSome || decide (isValidRev copyfrom_rev)) &&
      !(copyfrom_path.isSome && decide (isValidRev copyfrom_rev)) then
    (s, some Err.invalidOpOnCwd)
  else if inSkippedTrees skippedTrees full_path &&
      !inDeletedTree deletedTrees full_path then
    (s, none)
  else
    match check_path_under_root pb_path name with
    | some e => (s, some e)
    | none => k s

/-- `open_file` (update_editor.c:3666-3695 prefix): check the child name
right after making the file baton, before any further work. -/
def open_file (pb_path name : String)
    (k : WcOpState → WcOpState × Option Err) (s : WcOpState) :
    WcOpState × Option Err :=
  match check_path_under_root pb_path name with
  | some e => (s, some e)
  | none => k s

end PathCheck

/-- C8, counterexample: `add_file` tests the already-skipped tree
(update_editor.c:3495) before `check_path_under_root`
(update_editor.c:3509), so an add of a child whose name escapes the
parent returns success (silently skipping) instead of failing with
`obstructed_update` when the path lies in an already-skipped tree --
contradicting the claim for `add_file`. -/
theorem add_file_skip_bypasses_path_check :
    svn_dirent_is_under_root "wc/a" ([Char.ofNat 46, Char.ofNat 46,
      Char.ofNat 92, Char.ofNat 101].asString) = false ∧
    PathCheck.add_file ["wc/a"] [] "wc/a/evil" "wc/a"
      ([Char.ofNat 46, Char.ofNat 46, Char.ofNat 92, Char.ofNat 101].asString)
      none (-1) (fun t => (t, none)) ⟨[], ["w"], ["p"], []⟩
      = (⟨[], ["w"], ["p"], []⟩, none) := by
  constructor
  · rfl
  · decide

/-- C8 (amended): whenever joining the child's name to the parent's path
escapes the parent, each of `delete_entry`, `add_directory`,
`open_directory`, `add_file` and `open_file` fails with
`obstructed_update` and performs no mutation: the continuation is never
reached, entries and notifications are unchanged, and the effective log
command stream `logged ++ buffer` is preserved (the two directory
operations first flush the parent's pending commands to disk) -- with
the one exception that `add_file` inside an already-skipped, not locally
deleted tree returns success without reaching the check (hence the
`add_file` conjunct assumes the path is not in such a tree, and sane
copyfrom arguments are assumed where the operation asserts them). -/
theorem path_check_guards_all_ops
    (pb_path name full_path : String)
    (skippedTrees deletedTrees : List String)
    (s : WcOpState) (k : WcOpState → WcOpState × Option Err)
    (hbad : svn_dirent_is_under_root pb_path name = false) :
    PathCheck.delete_entry pb_path name k s
      = (s, some Err.obstructedUpdate) ∧
    (∀ cp cr, ((cp.isSome ∧ isValidRev cr) ∨ (cp = none ∧ ¬ isValidRev cr)) →
      PathCheck.add_directory pb_path name cp cr k s
        = (flush_log s, some Err.obstructedUpdate)) ∧
    PathCheck.open_directory pb_path name k s
      = (flush_log s, some Err.obstructedUpdate) ∧
    (∀ cp cr, ((cp.isSome ∧ isValidRev cr) ∨ (cp = none ∧ ¬ isValidRev cr)) →
      (inSkippedTrees skippedTrees full_path &&
        !inDeletedTree deletedTrees full_path) = false →
      PathCheck.add_file skippedTrees deletedTrees full_path pb_path name
        cp cr k s = (s, some Err.obstructedUpdate)) ∧
    PathCheck.open_file pb_path name k s
      = (s, some Err.obstructedUpdate) ∧
    (flush_log s).entries = s.entries ∧
    (flush_log s).notifications = s.notifications ∧
    (flush_log s).logged ++ (flush_log s).buffer = s.logged ++ s.buffer := by
  have hchk : check_path_under_root pb_path name
      = some Err.obstructedUpdate := by
    unfold check_path_under_root
    rw [hbad]
    rfl
  refine ⟨?_, ?_, ?_, ?_, ?_, rfl, rfl, by simp [flush_log]⟩
  · unfold PathCheck.delete_entry
    rw [hchk]
  · intro cp cr hsane
    unfold PathCheck.add_directory
    rw [if_neg (not_not_intro hsane), hchk]
  · unfold PathCheck.open_directory
    rw [hchk]
  · intro cp cr hsane hns
    unfold PathCheck.add_file
    rw [hns, hchk]
    rcases hsane with ⟨h1, h2⟩ | ⟨h1, h2⟩
    · rw [if_neg (by simp [h1, decide_eq_true h2])]
      rfl
    · rw [if_neg (by simp [h1, decide_eq_false h2])]
      rfl
  · unfold PathCheck.open_file
    rw [hchk]

/-- Witness for C8 (amended): the CVE-2007-3846 name `..\e` is rejected
by `delete_entry` and `open_directory` with `obstructed_update`, the
latter preserving the effective log stream across its flush. -/
theorem path_check_guards_all_ops_witness :
    svn_dirent_is_under_root "wc/a" ([Char.ofNat 46, Char.ofNat 46,
      Char.ofNat 92, Char.ofNat 101].asString) = false ∧
    PathCheck.delete_entry "wc/a" ([Char.ofNat 46, Char.ofNat 46,
      Char.ofNat 92, Char.ofNat 101].asString) (fun t => (t, none))
      ⟨[], ["w"], ["p"], []⟩
      = (⟨[], ["w"], ["p"], []⟩, some Err.obstructedUpdate) ∧
    PathCheck.open_directory "wc/a" ([Char.ofNat 46, Char.ofNat 46,
      Char.ofNat 92, Char.ofNat 101].asString) (fun t => (t, none))
      ⟨[], ["w"], ["p"], []⟩
      = (flush_log ⟨[], ["w"], ["p"], []⟩, some Err.obstructedUpdate) :=
  ⟨rfl,
   (path_check_guards_all_ops "wc/a" ([Char.ofNat 46, Char.ofNat 46,
      Char.ofNat 92, Char.ofNat 101].asString) "x" [] []
      ⟨[], ["w"], ["p"], []⟩ (fun t => (t, none)) rfl).1,
   (path_check_guards_all_ops "wc/a" ([Char.ofNat 46, Char.ofNat 46,
      Char.ofNat 92, Char.ofNat 101].asString) "x" [] []
      ⟨[], ["w"], ["p"], []⟩ (fun t => (t, none)) rfl).2.2.1⟩

end SvnUpdateEditor
